import Mathlib

/-!
Shallow embedding of `src/prettyresults/dataloader.py`.

Modelling conventions:
* A pandas scalar is `Val`: `Val.na` stands for NaN / a missing value,
  `Val.num q` for a numeric value (Python floats are modelled as rationals),
  `Val.str s` for a Python string.
* A dataframe row is an association list `Row`; `rowGet` models `row[name]`
  (the columns accessed by the claims are always present; an absent key is
  modelled as missing, mirroring that the code never reads undeclared
  columns on the paths the claims describe).
* Python code that raises (`KeyError` from `self.variables[varname]`,
  `TypeError` from `np.isnan` applied to a string, `ValueError` from
  `astype(np.int64)` applied to NaN or a string) is modelled with `Option`:
  `none` is an uncaught exception.
* `for varname in df` iterates `iter(df.columns)`; pandas column insertion
  replaces the (immutable) column Index with a new one, so the loop sees a
  snapshot of the columns taken at loop entry.  The fold in
  `Loader.preprocess` therefore runs over the column list captured before
  the loop, and columns added during the loop (the `_ORIGINAL` copies) are
  not themselves processed.
* `df.apply(f, axis=1)` applies `f` to the rows in order, so the row-wise
  combinators are folds over the row list threading the warning log.
-/

namespace DataloaderPy

/-- A pandas scalar value: missing (NaN), numeric, or string. -/
inductive Val where
  | na : Val
  | num : ℚ → Val
  | str : String → Val
deriving DecidableEq

/-- Models `pandas.isna` on a scalar: only NaN is missing. -/
def Val.isNa : Val → Bool
  | .na => true
  | _ => false

/-- True exactly on string values. -/
def Val.isStr : Val → Bool
  | .str _ => true
  | _ => false

/-- Models `np.isnan(v)`: defined on floats (NaN included), raises
`TypeError` (`none`) on a string. -/
def pyIsNan : Val → Option Bool
  | .na => some true
  | .num _ => some false
  | .str _ => none

/-- Python truthiness (`bool(v)`): a float is falsy iff it is `0.0`
(NaN is truthy), a string is falsy iff empty. -/
def pyTruthy : Val → Bool
  | .na => true
  | .num q => decide (q ≠ 0)
  | .str s => decide (s ≠ "")

/-- Python string formatting of a value, as used by `str.format`:
`str(5.0) = "5.0"`, `str(float('nan')) = "nan"`.  Non-integral rationals
are a modelling approximation of float printing; the claims only format
integral values. -/
def fmtVal : Val → String
  | .na => "nan"
  | .num q => if q.den == 1 then toString q.num ++ ".0" else toString q
  | .str s => s

/-- A warning entry `(case_id, text)` as stored in `DataLoader._warnings`. -/
abbrev Warning := String × String

/-- A dataframe row: an association list from column name to value. -/
abbrev Row := List (String × Val)

/-- Models `row[name]` for a row. -/
def rowGet (r : Row) (name : String) : Val :=
  match r.find? (fun p => p.1 == name) with
  | some p => p.2
  | none => Val.na

/-- Functional update of one field of a row (the row-level effect of
assigning into a dataframe column). -/
def rowSet (r : Row) (name : String) (v : Val) : Row :=
  if r.any (fun p => p.1 == name) then
    r.map (fun p => if p.1 == name then (name, v) else p)
  else r ++ [(name, v)]

/-- A dataframe: ordered column names plus the list of rows. -/
structure Table where
  cols : List String
  rows : List Row
deriving DecidableEq

/-- Writes column `name` row by row; if the value list is shorter the
remaining rows receive NaN (pandas index alignment). -/
def setColRows (name : String) : List Row → List Val → List Row
  | [], _ => []
  | r :: rs, [] => rowSet r name Val.na :: setColRows name rs []
  | r :: rs, v :: vs => rowSet r name v :: setColRows name rs vs

/-- Models `df[name] = values`: creates or overwrites a column. -/
def Table.setCol (t : Table) (name : String) (vs : List Val) : Table :=
  { cols := if t.cols.contains name then t.cols else t.cols ++ [name],
    rows := setColRows name t.rows vs }

/-- Models `df[name]` as the list of per-row values. -/
def Table.col (t : Table) (name : String) : List Val :=
  t.rows.map (fun r => rowGet r name)

/-- Semantic variable type (`utils.VarType`). -/
inductive VarType where
  | int : VarType
  | bool : VarType
  | category : VarType
  | float : VarType
deriving DecidableEq

/-- A derivation hook `fun(df, loader)`: it receives the case-identifier
function (the only part of the loader it uses besides the warning log),
the current table and the current warning log, and returns the computed
column together with the new log; `none` models an uncaught exception. -/
abbrev Comp :=
  (Row → String) → Table → List Warning → Option (List Val × List Warning)

/-- The per-variable metadata dictionary. `labels` maps a raw label key to
its canonical value (`value[0]` of the Python labels entry). -/
structure VarSpec where
  type : VarType
  labels : List (Val × Val) := []
  mandatory : Bool := false
  compPre : Option Comp := none
  compPost : Option Comp := none

/-- The `DataLoader` configuration: the ordered variable registry
(`self.variables`; `variables` is a reserved word in Lean, hence `vars`)
and the case-identifier function.  The warning log is threaded
explicitly. -/
structure Loader where
  vars : List (String × VarSpec)
  case_id_fun : Row → String

/-- Argument of `add_warning`: either a literal identifier string or a
row (`pd.Series`). -/
inductive CaseId where
  | str : String → CaseId
  | series : Row → CaseId

/-- Models `DataLoader.add_warning`: appends one `(case_id, text)` pair,
deriving the identifier via `case_id_fun` when given a row. -/
def Loader.add_warning (L : Loader) (w : List Warning) (c : CaseId)
    (text : String) : List Warning :=
  match c with
  | .str s => w ++ [(s, text)]
  | .series r => w ++ [(L.case_id_fun r, text)]

/-- Models `DataLoader._drop_na`: warns once per row with a missing value
in `varname` (in row order), then drops exactly those rows from the whole
table.  The Python `if len(lost_cases) != 0` guard is behaviourally a
no-op (appending no warnings and dropping no rows) and is inlined. -/
def Loader.drop_na (L : Loader) (t : Table) (w : List Warning)
    (varname : String) : Table × List Warning :=
  let lost := t.rows.filter (fun r => (rowGet r varname).isNa)
  ({ t with rows := t.rows.filter (fun r => !(rowGet r varname).isNa) },
   w ++ lost.map (fun r => (L.case_id_fun r, varname ++ " perdida")))

/-- The loop body of `DataLoader._compute_derived` over the registry. -/
def computeDerivedAux (cid : Row → String) (key : VarSpec → Option Comp) :
    List (String × VarSpec) → Table → List Warning →
    Option (Table × List Warning)
  | [], t, w => some (t, w)
  | p :: ps, t, w =>
    match key p.2 with
    | none => computeDerivedAux cid key ps t w
    | some f =>
      (f cid t w).bind (fun res =>
        computeDerivedAux cid key ps (t.setCol p.1 res.1) res.2)

/-- Models `DataLoader._compute_derived(df, calculation_key)`. -/
def Loader.compute_derived (L : Loader) (t : Table) (w : List Warning)
    (key : VarSpec → Option Comp) : Option (Table × List Warning) :=
  computeDerivedAux L.case_id_fun key L.vars t w

/-- Category coercion: `astype(CategoricalDtype(labels.keys()))` followed by
`rename_categories`: a raw value equal to some label key becomes that
label's canonical value, anything else becomes missing. -/
def coerceCategory (labels : List (Val × Val)) (v : Val) : Val :=
  match labels.find? (fun p => p.1 == v) with
  | some p => p.2
  | none => Val.na

/-- Bool coercion: `df.loc[~df[v].isin((0, 1)), [v]] = np.nan`. -/
def coerceBool (v : Val) : Val :=
  if v == Val.num 0 || v == Val.num 1 then v else Val.na

/-- The value-level coercion applied by the type-conversion step
(identity for `Int` and `Float`, which get no structural coercion). -/
def coerceValue (spec : VarSpec) : Val → Val :=
  match spec.type with
  | .category => coerceCategory spec.labels
  | .bool => coerceBool
  | _ => id

/-- The column write performed by the type-conversion step; `Int` and
`Float` columns are not written at all, exactly as in the source. -/
def coerceCol (spec : VarSpec) (t : Table) (v : String) : Table :=
  match spec.type with
  | .category => t.setCol v ((t.col v).map (coerceCategory spec.labels))
  | .bool => t.setCol v ((t.col v).map coerceBool)
  | _ => t

/-- Models `astype(np.int64)` on one value: floats truncate toward zero,
NaN and strings raise (`none`).  (Int64 overflow wrap-around is not
modelled; no claim exercises it.) -/
def castInt64 : Val → Option Val
  | .num q => some (.num ((Int.tdiv q.num (q.den : ℤ) : ℤ) : ℚ))
  | _ => none

/-- Models `df[v].astype(np.int64)` on a whole column: fails if any single
value fails to cast. -/
def castColInt : List Val → Option (List Val)
  | [] => some []
  | v :: vs =>
    match castInt64 v, castColInt vs with
    | some x, some xs => some (x :: xs)
    | _, _ => none

/-- One iteration of the per-column loop of `DataLoader._preprocess`:
store the `_ORIGINAL` copy, coerce by declared type, then apply mandatory
row-dropping and (for mandatory `Int`) the integer cast.  `none` models the
`KeyError` on an undeclared column or a failing cast. -/
def Loader.preprocessStep (L : Loader) (st : Table × List Warning)
    (varname : String) : Option (Table × List Warning) :=
  match L.vars.find? (fun p => p.1 == varname) with
  | none => none
  | some pr =>
    let t1 := st.1.setCol (varname ++ "_ORIGINAL") (st.1.col varname)
    let t2 := coerceCol pr.2 t1 varname
    if pr.2.mandatory then
      let dropped := L.drop_na t2 st.2 varname
      if pr.2.type == VarType.int then
        (castColInt (dropped.1.col varname)).map
          (fun cast => (dropped.1.setCol varname cast, dropped.2))
      else some dropped
    else some (t2, st.2)

/-- The per-column loop of `_preprocess`, over the snapshot of the column
list taken at loop entry. -/
def Loader.coercePass (L : Loader) :
    List String → Table × List Warning → Option (Table × List Warning)
  | [], st => some st
  | v :: cs, st => (L.preprocessStep st v).bind (L.coercePass cs)

/-- Models `DataLoader._preprocess`: pre-pass derivation, the per-column
coercion/validation loop, then post-pass derivation. -/
def Loader.preprocess (L : Loader) (t : Table) (w : List Warning) :
    Option (Table × List Warning) :=
  (L.compute_derived t w (fun s => s.compPre)).bind (fun st1 =>
    (L.coercePass st1.1.cols st1).bind (fun st2 =>
      L.compute_derived st2.1 st2.2 (fun s => s.compPost)))

/-- Default sentinel values `DEFAULT_NA_VALUES = (98.0, 99.0)`. -/
def DEFAULT_NA_VALUES : List Val := [Val.num 98, Val.num 99]

/-- The `on_conflict` argument of `combine_variables`: the Python code
dispatches on `callable(on_conflict)`. -/
inductive OnConflict where
  | value : Val → OnConflict
  | fn : (Val → Val → Val) → OnConflict

/-- Models `on_conflict(v1, v2) if callable(on_conflict) else on_conflict`. -/
def OnConflict.resolve : OnConflict → Val → Val → Val
  | .value v, _, _ => v
  | .fn f, a, b => f a b

/-- The conflict warning text of `_combine_variables_row`. -/
def conflictMsg (varname1 : String) (v1 : Val) (varname2 : String)
    (v2 : Val) : String :=
  "Valores contradictorios: " ++ varname1 ++ "=" ++ fmtVal v1 ++ " vs. " ++
    varname2 ++ "=" ++ fmtVal v2

/-- Models `_combine_variables_row`.  `none` is the `TypeError` raised by
`np.isnan` on a string value. -/
def combineVariablesRow (cid : Row → String) (varname1 varname2 : String)
    (onConflict : OnConflict) (naValues : List Val) (r : Row)
    (w : List Warning) : Option (Val × List Warning) :=
  let v1 := rowGet r varname1
  let v2 := rowGet r varname2
  match pyIsNan v1, pyIsNan v2 with
  | some b1, some b2 =>
    let isNan1 := b1 || naValues.contains v1
    let isNan2 := b2 || naValues.contains v2
    if isNan1 && isNan2 then some (Val.na, w)
    else if !isNan1 && isNan2 then some (v1, w)
    else if isNan1 && !isNan2 then some (v2, w)
    else if v1 == v2 then some (v1, w)
    else
      let res := onConflict.resolve v1 v2
      match pyIsNan res with
      | none => none
      | some true =>
        some (res, w ++ [(cid r, conflictMsg varname1 v1 varname2 v2)])
      | some false => some (res, w)
  | _, _ => none

/-- The row fold performed by `df.apply(..., axis=1)` for
`combine_variables`. -/
def combineRowsAux (cid : Row → String) (varname1 varname2 : String)
    (onConflict : OnConflict) (naValues : List Val) :
    List Row → List Warning → Option (List Val × List Warning)
  | [], w => some ([], w)
  | r :: rs, w =>
    (combineVariablesRow cid varname1 varname2 onConflict naValues r w).bind
      (fun pr =>
        (combineRowsAux cid varname1 varname2 onConflict naValues rs
            pr.2).map
          (fun q => (pr.1 :: q.1, q.2)))

/-- Models `combine_variables(varname1, varname2, on_conflict, na_values)`. -/
def combine_variables (varname1 varname2 : String)
    (onConflict : OnConflict) (naValues : List Val) : Comp :=
  fun cid t w =>
    combineRowsAux cid varname1 varname2 onConflict naValues t.rows w

/-- The resolver `lambda v1, v2: v1 or v2` of `combine_variables_bool`. -/
def pyOrVal (v1 v2 : Val) : Val :=
  if pyTruthy v1 then v1 else v2

/-- Models `combine_variables_bool`. -/
def combine_variables_bool (varname1 varname2 : String)
    (naValues : List Val) : Comp :=
  combine_variables varname1 varname2 (.fn pyOrVal) naValues

/-- The value list of the `_multibool_to_enum_row` warning text. -/
def multiboolValueList (variables2 : List String) (r : Row) : String :=
  String.intercalate ", "
    (variables2.map (fun v => v ++ "=" ++ fmtVal (rowGet r v)))

/-- Models `_multibool_to_enum_row` (total: every pandas operation it uses
is defined on strings as well). -/
def multiboolToEnumRow (cid : Row → String) (variables2 : List String)
    (naValues : List Val) (r : Row) (w : List Warning) :
    Val × List Warning :=
  let vals := variables2.map (fun v => rowGet r v)
  if vals.countP (fun v => v.isNa) + vals.countP (fun v => naValues.contains v)
      == variables2.length then
    (Val.na, w)
  else
    match variables2.filter (fun v => rowGet r v == Val.num 1) with
    | [name] => (Val.str name, w)
    | _ =>
      (Val.na,
       w ++ [(cid r, "Multi-bool a enum - valores contradictorios: " ++
         multiboolValueList variables2 r)])

/-- The row fold performed by `df.apply(..., axis=1)` for
`multibool_to_enum`. -/
def multiboolRowsAux (cid : Row → String) (variables2 : List String)
    (naValues : List Val) : List Row → List Warning →
    List Val × List Warning
  | [], w => ([], w)
  | r :: rs, w =>
    let pr := multiboolToEnumRow cid variables2 naValues r w
    let q := multiboolRowsAux cid variables2 naValues rs pr.2
    (pr.1 :: q.1, q.2)

/-- Models `multibool_to_enum(variables, na_values)`. -/
def multibool_to_enum (variables2 : List String)
    (naValues : List Val) : Comp :=
  fun cid t w => some (multiboolRowsAux cid variables2 naValues t.rows w)

/-- The column computed by `_logical_op`'s inner function: the accumulators
start from `varnames[0]` and then fold over the whole `varnames` list; the
`0.0` assignment comes second and therefore wins where both masks hold. -/
def logicalOpFun (tcomb fcomb : Bool → Bool → Bool) (v0 : String)
    (varnames : List String) : Comp :=
  fun _ t w =>
    some (t.rows.map (fun r =>
      let tm := varnames.foldl (fun a v => tcomb a (rowGet r v == Val.num 1))
        (rowGet r v0 == Val.num 1)
      let fm := varnames.foldl (fun a v => fcomb a (rowGet r v == Val.num 0))
        (rowGet r v0 == Val.num 0)
      if fm then Val.num 0 else if tm then Val.num 1 else Val.na), w)

/-- Models `_logical_op`: the `assert len(varnames) >= 2` at factory time is
the `none` case. -/
def logicalOp (tcomb fcomb : Bool → Bool → Bool) :
    List String → Option Comp
  | [] => none
  | [_] => none
  | v0 :: v1 :: rest => some (logicalOpFun tcomb fcomb v0 (v0 :: v1 :: rest))

/-- Models `logical_or`. -/
def logical_or (varnames : List String) : Option Comp :=
  logicalOp (fun x y => x || y) (fun x y => x && y) varnames

/-- Models `logical_and`. -/
def logical_and (varnames : List String) : Option Comp :=
  logicalOp (fun x y => x && y) (fun x y => x || y) varnames

/-- A parsed CSV file: the header names and the (aligned) data rows.
Cell values are already scalar `Val`s; `na_values` markers are compared
against them during the read. -/
structure CsvFile where
  header : List String
  rows : List (List Val)

/-- Failure modes of `load_data`: unreadable file (`FileError`), a declared
non-derived variable absent from the header (`ColumnError` — pandas
`usecols` mismatch), or an uncaught exception from preprocessing. -/
inductive LoadErr where
  | file : LoadErr
  | column : LoadErr
  | crash : LoadErr
deriving DecidableEq

/-- The column names `load_data` reads from the file: every variable whose
dict has neither `computation-pre` nor `computation-post`. -/
def csvVarnames (L : Loader) : List String :=
  (L.vars.filter
    (fun p => p.2.compPre.isNone && p.2.compPost.isNone)).map (fun p => p.1)

/-- Models `pd.read_csv(fname, usecols=..., na_values=...)` on a parsed
file: fails if some requested column is missing from the header, otherwise
keeps exactly the requested columns (in file order) and maps `na_values`
markers to missing. -/
def readCsv (f : CsvFile) (usecols : List String) (naValues : List Val) :
    Option Table :=
  if usecols.all (fun c => f.header.contains c) then
    some { cols := f.header.filter (fun c => usecols.contains c),
           rows := f.rows.map (fun vals =>
             ((f.header.zip vals).filter
                 (fun p => usecols.contains p.1)).map
               (fun p =>
                 (p.1, if naValues.contains p.2 then Val.na else p.2))) }
  else none

/-- The table published to the report sink:
`ctx.get_result('root').add_table('warnings', 'Warnings', headings=['Caso', ''], rows=self._warnings)`. -/
structure Report where
  resultId : String
  tableId : String
  title : String
  headings : List String
  rows : List Warning
deriving DecidableEq

/-- Models `DataLoader.load_data`: read the non-derived columns, preprocess,
publish the accumulated warnings once, return the dataframe.  `file?` is
`none` when the path is unreadable; `w0` is the warning log accumulated by
the loader so far (`self._warnings` persists across loads). -/
def Loader.load_data (L : Loader) (file? : Option CsvFile)
    (naValues : List Val) (w0 : List Warning) :
    Except LoadErr (Table × List Warning × Report) :=
  match file? with
  | none => .error .file
  | some f =>
    match readCsv f (csvVarnames L) naValues with
    | none => .error .column
    | some df =>
      match L.preprocess df w0 with
      | none => .error .crash
      | some st =>
        .ok (st.1, st.2,
          { resultId := "root", tableId := "warnings", title := "Warnings",
            headings := ["Caso", ""], rows := st.2 })

/-! ### Lemmas about rows, columns and tables -/

theorem rowGet_eq_find? (r : Row) (n : String) :
    rowGet r n = ((r.find? (fun p => p.1 == n)).map Prod.snd).getD Val.na := by
  unfold rowGet
  cases r.find? (fun p => p.1 == n) <;> rfl

theorem find?_setMap (r : Row) (n : String) (v : Val) :
    (r.map (fun p => if p.1 == n then (n, v) else p)).find?
        (fun p => p.1 == n)
      = if r.any (fun p => p.1 == n) then some (n, v) else none := by
  induction r with
  | nil => rfl
  | cons p ps ih =>
    rw [List.map_cons, List.any_cons]
    by_cases hp : p.1 = n
    · have hif : (if (p.1 == n) = true then ((n, v) : String × Val) else p)
          = (n, v) := by simp [hp]
      rw [hif, List.find?_cons_of_pos _ (by simp), if_pos (by simp [hp])]
    · have hif : (if (p.1 == n) = true then ((n, v) : String × Val) else p)
          = p := by simp [hp]
      rw [hif, List.find?_cons_of_neg _ (by simp [hp]), ih]
      by_cases hh : ps.any (fun p => p.1 == n) = true
      · rw [if_pos hh, if_pos (by simp [hp, hh])]
      · rw [if_neg hh, if_neg (by simp [hp, hh])]

theorem find?_setMap_ne (r : Row) {n n' : String} (v : Val) (h : n' ≠ n) :
    (r.map (fun p => if p.1 == n then (n, v) else p)).find?
        (fun p => p.1 == n')
      = r.find? (fun p => p.1 == n') := by
  induction r with
  | nil => rfl
  | cons p ps ih =>
    rw [List.map_cons]
    by_cases hp : p.1 = n
    · have hif : (if (p.1 == n) = true then ((n, v) : String × Val) else p)
          = (n, v) := by simp [hp]
      rw [hif, List.find?_cons_of_neg _ (by simp [Ne.symm h]),
        List.find?_cons_of_neg _ (by simp [hp, Ne.symm h]), ih]
    · have hif : (if (p.1 == n) = true then ((n, v) : String × Val) else p)
          = p := by simp [hp]
      rw [hif]
      by_cases hp' : p.1 = n'
      · rw [List.find?_cons_of_pos _ (by simp [hp']),
          List.find?_cons_of_pos _ (by simp [hp'])]
      · rw [List.find?_cons_of_neg _ (by simp [hp']),
          List.find?_cons_of_neg _ (by simp [hp']), ih]

theorem rowGet_rowSet_self (r : Row) (n : String) (v : Val) :
    rowGet (rowSet r n v) n = v := by
  unfold rowSet
  by_cases h : r.any (fun p => p.1 == n) = true
  · rw [if_pos h, rowGet_eq_find?, find?_setMap, if_pos h]
    rfl
  · rw [if_neg h, rowGet_eq_find?, List.find?_append]
    have hnone : r.find? (fun p => p.1 == n) = none := by
      rw [List.find?_eq_none]
      intro x hx hb
      exact h (List.any_eq_true.mpr ⟨x, hx, hb⟩)
    rw [hnone]
    simp

theorem rowGet_rowSet_ne (r : Row) (n n' : String) (v : Val) (h : n' ≠ n) :
    rowGet (rowSet r n v) n' = rowGet r n' := by
  unfold rowSet
  by_cases ha : r.any (fun p => p.1 == n) = true
  · rw [if_pos ha, rowGet_eq_find?, find?_setMap_ne r v h, ← rowGet_eq_find?]
  · rw [if_neg ha, rowGet_eq_find?, List.find?_append]
    have hlast : ([(n, v)] : Row).find? (fun p => p.1 == n') = none := by
      simp [Ne.symm h]
    rw [hlast]
    simp [← rowGet_eq_find?]

theorem length_setColRows (n : String) (rows : List Row) (vs : List Val) :
    (setColRows n rows vs).length = rows.length := by
  induction rows generalizing vs with
  | nil => rfl
  | cons r rs ih => cases vs <;> simp [setColRows, ih]

theorem map_rowGet_setColRows_ne (n : String) {n' : String} (h : n' ≠ n)
    (rows : List Row) (vs : List Val) :
    (setColRows n rows vs).map (fun r => rowGet r n')
      = rows.map (fun r => rowGet r n') := by
  induction rows generalizing vs with
  | nil => rfl
  | cons r rs ih =>
    cases vs <;> simp [setColRows, rowGet_rowSet_ne _ _ _ _ h, ih]

theorem map_rowGet_setColRows_self (n : String) (rows : List Row)
    (vs : List Val) (h : rows.length = vs.length) :
    (setColRows n rows vs).map (fun r => rowGet r n) = vs := by
  induction rows generalizing vs with
  | nil =>
    cases vs with
    | nil => rfl
    | cons v vs' => simp at h
  | cons r rs ih =>
    cases vs with
    | nil => simp at h
    | cons v vs' =>
      simp only [List.length_cons, Nat.add_right_cancel_iff] at h
      simp [setColRows, rowGet_rowSet_self, ih _ h]

theorem mem_setColRows (n : String) (rows : List Row) (vs : List Val)
    {r' : Row} (h : r' ∈ setColRows n rows vs) :
    ∃ r ∈ rows, ∃ x, r' = rowSet r n x := by
  induction rows generalizing vs with
  | nil => simp [setColRows] at h
  | cons r rs ih =>
    cases vs with
    | nil =>
      rcases List.mem_cons.mp h with h | h
      · exact ⟨r, List.mem_cons_self r rs, Val.na, h⟩
      · obtain ⟨r₀, hr₀, x, hx⟩ := ih _ h
        exact ⟨r₀, List.mem_cons_of_mem _ hr₀, x, hx⟩
    | cons v vs' =>
      rcases List.mem_cons.mp h with h | h
      · exact ⟨r, List.mem_cons_self r rs, v, h⟩
      · obtain ⟨r₀, hr₀, x, hx⟩ := ih _ h
        exact ⟨r₀, List.mem_cons_of_mem _ hr₀, x, hx⟩

theorem mem_setColRows_len (n : String) (rows : List Row) (vs : List Val)
    (hlen : rows.length = vs.length) {r' : Row}
    (h : r' ∈ setColRows n rows vs) :
    ∃ r ∈ rows, ∃ x ∈ vs, r' = rowSet r n x := by
  induction rows generalizing vs with
  | nil => simp [setColRows] at h
  | cons r rs ih =>
    cases vs with
    | nil => simp at hlen
    | cons v vs' =>
      simp only [List.length_cons, Nat.add_right_cancel_iff] at hlen
      rcases List.mem_cons.mp h with h | h
      · exact ⟨r, List.mem_cons_self r rs, v, List.mem_cons_self v vs', h⟩
      · obtain ⟨r₀, hr₀, x, hx, he⟩ := ih _ hlen h
        exact ⟨r₀, List.mem_cons_of_mem _ hr₀, x,
          List.mem_cons_of_mem _ hx, he⟩

theorem Table.col_length (t : Table) (n : String) :
    (t.col n).length = t.rows.length := by
  simp [Table.col]

theorem Table.rows_setCol_length (t : Table) (n : String) (vs : List Val) :
    (t.setCol n vs).rows.length = t.rows.length := by
  simp [Table.setCol, length_setColRows]

theorem Table.col_setCol_ne (t : Table) (n : String) {n' : String}
    (vs : List Val) (h : n' ≠ n) :
    (t.setCol n vs).col n' = t.col n' := by
  simp only [Table.setCol, Table.col]
  exact map_rowGet_setColRows_ne n h t.rows vs

theorem Table.col_setCol_self (t : Table) (n : String) (vs : List Val)
    (h : t.rows.length = vs.length) :
    (t.setCol n vs).col n = vs := by
  simp only [Table.setCol, Table.col]
  exact map_rowGet_setColRows_self n t.rows vs h

theorem Table.mem_cols_setCol (t : Table) (n : String) (vs : List Val)
    {c : String} (h : c ∈ t.cols) : c ∈ (t.setCol n vs).cols := by
  simp only [Table.setCol]
  split
  · exact h
  · exact List.mem_append_left _ h

theorem Table.self_mem_cols_setCol (t : Table) (n : String) (vs : List Val) :
    n ∈ (t.setCol n vs).cols := by
  simp only [Table.setCol]
  split
  · next hc => exact List.mem_of_elem_eq_true hc
  · exact List.mem_append_right _ (List.mem_singleton.mpr rfl)

/-- No row of the table has a missing value in column `n`. -/
def colNoNa (t : Table) (n : String) : Prop :=
  ∀ y ∈ t.col n, y.isNa = false

theorem colNoNa_of_sublist {t t' : Table} {n : String}
    (h : (t'.col n).Sublist (t.col n)) (hn : colNoNa t n) : colNoNa t' n :=
  fun y hy => hn y (h.subset hy)

/-- A string cannot equal itself with the `_ORIGINAL` suffix appended. -/
theorem ne_origName (s : String) : s ≠ s ++ "_ORIGINAL" := by
  intro h
  have hl := congrArg String.length h
  rw [String.length_append] at hl
  simp at hl
  exact absurd hl (by decide)

/-! ### Lemmas about the preprocessing building blocks -/

theorem Loader.drop_na_fst_rows (L : Loader) (t : Table) (w : List Warning)
    (v : String) :
    (L.drop_na t w v).1.rows
      = t.rows.filter (fun r => !(rowGet r v).isNa) := rfl

theorem Loader.drop_na_fst_cols (L : Loader) (t : Table) (w : List Warning)
    (v : String) : (L.drop_na t w v).1.cols = t.cols := rfl

theorem Loader.drop_na_snd (L : Loader) (t : Table) (w : List Warning)
    (v : String) :
    (L.drop_na t w v).2
      = w ++ (t.rows.filter (fun r => (rowGet r v).isNa)).map
          (fun r => (L.case_id_fun r, v ++ " perdida")) := rfl

theorem Loader.drop_na_noNa (L : Loader) (t : Table) (w : List Warning)
    (v : String) : colNoNa (L.drop_na t w v).1 v := by
  intro y hy
  rw [Table.col] at hy
  obtain ⟨r, hr, rfl⟩ := List.mem_map.mp hy
  rw [Loader.drop_na_fst_rows, List.mem_filter] at hr
  simpa using hr.2

theorem Loader.drop_na_col_sublist (L : Loader) (t : Table)
    (w : List Warning) (v x : String) :
    ((L.drop_na t w v).1.col x).Sublist (t.col x) := by
  rw [Table.col, Table.col, Loader.drop_na_fst_rows]
  exact (List.filter_sublist t.rows).map _

theorem coerceCol_col_self (spec : VarSpec) (t : Table) (v : String) :
    (coerceCol spec t v).col v = (t.col v).map (coerceValue spec) := by
  cases h : spec.type with
  | category =>
    simp only [coerceCol, coerceValue, h]
    exact Table.col_setCol_self t v _
      (by rw [List.length_map, Table.col_length])
  | bool =>
    simp only [coerceCol, coerceValue, h]
    exact Table.col_setCol_self t v _
      (by rw [List.length_map, Table.col_length])
  | int => simp [coerceCol, coerceValue, h]
  | float => simp [coerceCol, coerceValue, h]

theorem coerceCol_col_ne (spec : VarSpec) (t : Table) (v : String)
    {x : String} (h : x ≠ v) : (coerceCol spec t v).col x = t.col x := by
  cases ht : spec.type <;>
    simp [coerceCol, ht, Table.col_setCol_ne _ _ _ h]

theorem coerceCol_mem_cols (spec : VarSpec) (t : Table) (v : String)
    {c : String} (h : c ∈ t.cols) : c ∈ (coerceCol spec t v).cols := by
  cases ht : spec.type with
  | category => simp only [coerceCol, ht]; exact Table.mem_cols_setCol _ _ _ h
  | bool => simp only [coerceCol, ht]; exact Table.mem_cols_setCol _ _ _ h
  | int => simpa [coerceCol, ht] using h
  | float => simpa [coerceCol, ht] using h

theorem castInt64_num {x y : Val} (h : castInt64 x = some y) :
    ∃ q : ℚ, y = Val.num q := by
  cases x with
  | na => simp [castInt64] at h
  | num q => exact ⟨_, by simpa [castInt64] using h.symm⟩
  | str s => simp [castInt64] at h

theorem castInt64_isSome {x : Val} (h1 : x.isNa = false)
    (h2 : x.isStr = false) : (castInt64 x).isSome := by
  cases x with
  | na => simp [Val.isNa] at h1
  | num q => simp [castInt64]
  | str s => simp [Val.isStr] at h2

theorem castColInt_length {vs out : List Val} (h : castColInt vs = some out) :
    out.length = vs.length := by
  induction vs generalizing out with
  | nil => simp [castColInt] at h; simp [← h]
  | cons v vs' ih =>
    rw [castColInt] at h
    cases hv : castInt64 v with
    | none => rw [hv] at h; exact absurd h (by simp)
    | some x =>
      rw [hv] at h
      cases hvs : castColInt vs' with
      | none => rw [hvs] at h; exact absurd h (by simp)
      | some xs =>
        rw [hvs] at h
        cases h
        simp [ih hvs]

theorem mem_castColInt {vs out : List Val} (h : castColInt vs = some out)
    {y : Val} (hy : y ∈ out) : ∃ q : ℚ, y = Val.num q := by
  induction vs generalizing out with
  | nil => simp [castColInt] at h; subst h; simp at hy
  | cons v vs' ih =>
    rw [castColInt] at h
    cases hv : castInt64 v with
    | none => rw [hv] at h; exact absurd h (by simp)
    | some x =>
      rw [hv] at h
      cases hvs : castColInt vs' with
      | none => rw [hvs] at h; exact absurd h (by simp)
      | some xs =>
        rw [hvs] at h
        cases h
        rcases List.mem_cons.mp hy with rfl | hy'
        · exact castInt64_num hv
        · exact ih hvs hy'

theorem setColRows_map (n : String) (rows : List Row) (g : Row → Val) :
    setColRows n rows (rows.map g)
      = rows.map (fun r => rowSet r n (g r)) := by
  induction rows with
  | nil => rfl
  | cons r rs ih => simp [setColRows, ih]

theorem castColInt_isSome {vs : List Val}
    (h : ∀ x ∈ vs, x.isNa = false ∧ x.isStr = false) :
    ∃ out, castColInt vs = some out := by
  induction vs with
  | nil => exact ⟨[], rfl⟩
  | cons v vs' ih =>
    obtain ⟨out', hout'⟩ := ih (fun x hx => h x (List.mem_cons_of_mem _ hx))
    obtain ⟨h1, h2⟩ := h v (List.mem_cons_self v vs')
    obtain ⟨y, hy⟩ := Option.isSome_iff_exists.mp (castInt64_isSome h1 h2)
    exact ⟨y :: out', by rw [castColInt, hy, hout']⟩

/-! ### Lemmas about one iteration of the preprocessing loop -/

theorem preprocessStep_none (L : Loader) (st : Table × List Warning)
    (v : String) (hf : L.vars.find? (fun p => p.1 == v) = none) :
    L.preprocessStep st v = none := by
  unfold Loader.preprocessStep
  rw [hf]

theorem preprocessStep_eq_of_find? (L : Loader) (st : Table × List Warning)
    (v : String) (pr : String × VarSpec)
    (hf : L.vars.find? (fun p => p.1 == v) = some pr) :
    L.preprocessStep st v =
      (if pr.2.mandatory then
         (if pr.2.type == VarType.int then
            (castColInt ((L.drop_na
                (coerceCol pr.2 (st.1.setCol (v ++ "_ORIGINAL") (st.1.col v))
                  v) st.2 v).1.col v)).map
              (fun cast =>
                ((L.drop_na (coerceCol pr.2
                    (st.1.setCol (v ++ "_ORIGINAL") (st.1.col v)) v)
                    st.2 v).1.setCol v cast,
                 (L.drop_na (coerceCol pr.2
                    (st.1.setCol (v ++ "_ORIGINAL") (st.1.col v)) v)
                    st.2 v).2))
          else
            some (L.drop_na (coerceCol pr.2
              (st.1.setCol (v ++ "_ORIGINAL") (st.1.col v)) v) st.2 v))
       else
         some (coerceCol pr.2 (st.1.setCol (v ++ "_ORIGINAL") (st.1.col v)) v,
           st.2)) := by
  unfold Loader.preprocessStep
  rw [hf]

theorem preprocessStep_col_sublist (L : Loader) (st : Table × List Warning)
    (v : String) {x : String} (hx1 : x ≠ v) (hx2 : x ≠ v ++ "_ORIGINAL")
    {out : Table × List Warning} (h : L.preprocessStep st v = some out) :
    (out.1.col x).Sublist (st.1.col x) := by
  cases hf : L.vars.find? (fun p => p.1 == v) with
  | none => rw [preprocessStep_none L st v hf] at h; exact absurd h (by simp)
  | some pr =>
    rw [preprocessStep_eq_of_find? L st v pr hf] at h
    have hbase :
        ∀ u : Table,
          (coerceCol pr.2 (st.1.setCol (v ++ "_ORIGINAL") (st.1.col v)) v
            = u) → u.col x = st.1.col x := by
      intro u hu
      rw [← hu, coerceCol_col_ne _ _ _ hx1, Table.col_setCol_ne _ _ _ hx2]
    have hdrop :
        ((L.drop_na (coerceCol pr.2
            (st.1.setCol (v ++ "_ORIGINAL") (st.1.col v)) v)
            st.2 v).1.col x).Sublist (st.1.col x) := by
      rw [← hbase _ rfl]
      exact Loader.drop_na_col_sublist L _ st.2 v x
    by_cases hm : pr.2.mandatory = true
    · rw [if_pos hm] at h
      by_cases hi : (pr.2.type == VarType.int) = true
      · rw [if_pos hi] at h
        cases hc : castColInt ((L.drop_na
            (coerceCol pr.2 (st.1.setCol (v ++ "_ORIGINAL") (st.1.col v)) v)
            st.2 v).1.col v) with
        | none => rw [hc] at h; exact absurd h (by simp)
        | some cast =>
          rw [hc] at h
          have h2 := Option.some.inj h
          cases h2
          simpa [Table.col_setCol_ne _ _ _ hx1] using hdrop
      · rw [if_neg hi] at h
        have h2 := Option.some.inj h
        cases h2
        exact hdrop
    · rw [if_neg hm] at h
      have h2 := Option.some.inj h
      cases h2
      exact (hbase _ rfl) ▸ List.Sublist.refl _

theorem preprocessStep_warnings (L : Loader) (st : Table × List Warning)
    (v : String) {out : Table × List Warning}
    (h : L.preprocessStep st v = some out) :
    ∃ d, out.2 = st.2 ++ d := by
  cases hf : L.vars.find? (fun p => p.1 == v) with
  | none => rw [preprocessStep_none L st v hf] at h; exact absurd h (by simp)
  | some pr =>
    rw [preprocessStep_eq_of_find? L st v pr hf] at h
    by_cases hm : pr.2.mandatory = true
    · rw [if_pos hm] at h
      by_cases hi : (pr.2.type == VarType.int) = true
      · rw [if_pos hi] at h
        cases hc : castColInt ((L.drop_na
            (coerceCol pr.2 (st.1.setCol (v ++ "_ORIGINAL") (st.1.col v)) v)
            st.2 v).1.col v) with
        | none => rw [hc] at h; exact absurd h (by simp)
        | some cast =>
          rw [hc] at h
          cases Option.some.inj h
          exact ⟨_, Loader.drop_na_snd L _ st.2 v⟩
      · rw [if_neg hi] at h
        cases Option.some.inj h
        exact ⟨_, Loader.drop_na_snd L _ st.2 v⟩
    · rw [if_neg hm] at h
      cases Option.some.inj h
      exact ⟨[], by simp⟩

theorem preprocessStep_mem_cols (L : Loader) (st : Table × List Warning)
    (v : String) {out : Table × List Warning}
    (h : L.preprocessStep st v = some out) {c : String}
    (hc : c ∈ st.1.cols) : c ∈ out.1.cols := by
  cases hf : L.vars.find? (fun p => p.1 == v) with
  | none => rw [preprocessStep_none L st v hf] at h; exact absurd h (by simp)
  | some pr =>
    rw [preprocessStep_eq_of_find? L st v pr hf] at h
    have hc2 : c ∈ (coerceCol pr.2
        (st.1.setCol (v ++ "_ORIGINAL") (st.1.col v)) v).cols :=
      coerceCol_mem_cols _ _ _ (Table.mem_cols_setCol _ _ _ hc)
    by_cases hm : pr.2.mandatory = true
    · rw [if_pos hm] at h
      by_cases hi : (pr.2.type == VarType.int) = true
      · rw [if_pos hi] at h
        cases hcast : castColInt ((L.drop_na
            (coerceCol pr.2 (st.1.setCol (v ++ "_ORIGINAL") (st.1.col v)) v)
            st.2 v).1.col v) with
        | none => rw [hcast] at h; exact absurd h (by simp)
        | some cast =>
          rw [hcast] at h
          cases Option.some.inj h
          exact Table.mem_cols_setCol _ _ _
            ((Loader.drop_na_fst_cols L _ st.2 v).symm ▸ hc2)
      · rw [if_neg hi] at h
        cases Option.some.inj h
        exact (Loader.drop_na_fst_cols L _ st.2 v).symm ▸ hc2
    · rw [if_neg hm] at h
      cases Option.some.inj h
      exact hc2

theorem preprocessStep_orig_mem_cols (L : Loader) (st : Table × List Warning)
    (v : String) {out : Table × List Warning}
    (h : L.preprocessStep st v = some out) :
    v ++ "_ORIGINAL" ∈ out.1.cols := by
  cases hf : L.vars.find? (fun p => p.1 == v) with
  | none => rw [preprocessStep_none L st v hf] at h; exact absurd h (by simp)
  | some pr =>
    rw [preprocessStep_eq_of_find? L st v pr hf] at h
    have hc2 : v ++ "_ORIGINAL" ∈ (coerceCol pr.2
        (st.1.setCol (v ++ "_ORIGINAL") (st.1.col v)) v).cols :=
      coerceCol_mem_cols _ _ _ (Table.self_mem_cols_setCol _ _ _)
    by_cases hm : pr.2.mandatory = true
    · rw [if_pos hm] at h
      by_cases hi : (pr.2.type == VarType.int) = true
      · rw [if_pos hi] at h
        cases hcast : castColInt ((L.drop_na
            (coerceCol pr.2 (st.1.setCol (v ++ "_ORIGINAL") (st.1.col v)) v)
            st.2 v).1.col v) with
        | none => rw [hcast] at h; exact absurd h (by simp)
        | some cast =>
          rw [hcast] at h
          cases Option.some.inj h
          exact Table.mem_cols_setCol _ _ _
            ((Loader.drop_na_fst_cols L _ st.2 v).symm ▸ hc2)
      · rw [if_neg hi] at h
        cases Option.some.inj h
        exact (Loader.drop_na_fst_cols L _ st.2 v).symm ▸ hc2
    · rw [if_neg hm] at h
      cases Option.some.inj h
      exact hc2

theorem preprocessStep_noNa_self (L : Loader) (st : Table × List Warning)
    (v : String) (pr : String × VarSpec)
    (hf : L.vars.find? (fun p => p.1 == v) = some pr)
    (hm : pr.2.mandatory = true) {out : Table × List Warning}
    (h : L.preprocessStep st v = some out) : colNoNa out.1 v := by
  rw [preprocessStep_eq_of_find? L st v pr hf, if_pos hm] at h
  by_cases hi : (pr.2.type == VarType.int) = true
  · rw [if_pos hi] at h
    cases hcast : castColInt ((L.drop_na
        (coerceCol pr.2 (st.1.setCol (v ++ "_ORIGINAL") (st.1.col v)) v)
        st.2 v).1.col v) with
    | none => rw [hcast] at h; exact absurd h (by simp)
    | some cast =>
      rw [hcast] at h
      cases Option.some.inj h
      intro y hy
      rw [Table.col_setCol_self _ _ _ (by
        rw [castColInt_length hcast, Table.col_length])] at hy
      obtain ⟨q, rfl⟩ := mem_castColInt hcast hy
      rfl
  · rw [if_neg hi] at h
    cases Option.some.inj h
    exact Loader.drop_na_noNa L _ st.2 v

/-- Row-level characterization of the table after the `_ORIGINAL` copy and
the type coercion: every row is transformed in place, the transformed row
reads back the coerced value under `v` and the pre-coercion value under
`v_ORIGINAL`. -/
theorem coerce_setOrig_rows (spec : VarSpec) (t : Table) (v : String) :
    ∃ F : Row → Row,
      (coerceCol spec (t.setCol (v ++ "_ORIGINAL") (t.col v)) v).rows
        = t.rows.map F ∧
      (∀ r, rowGet (F r) v = coerceValue spec (rowGet r v)) ∧
      (∀ r, rowGet (F r) (v ++ "_ORIGINAL") = rowGet r v) := by
  have hvne : v ≠ v ++ "_ORIGINAL" := ne_origName v
  have ht1 : (t.setCol (v ++ "_ORIGINAL") (t.col v)).rows
      = t.rows.map (fun r => rowSet r (v ++ "_ORIGINAL") (rowGet r v)) := by
    show setColRows _ t.rows (t.rows.map fun r => rowGet r v) = _
    exact setColRows_map _ t.rows _
  have hgv : ∀ r : Row,
      rowGet (rowSet r (v ++ "_ORIGINAL") (rowGet r v)) v = rowGet r v :=
    fun r => rowGet_rowSet_ne r _ v _ hvne
  have hgo : ∀ r : Row,
      rowGet (rowSet r (v ++ "_ORIGINAL") (rowGet r v)) (v ++ "_ORIGINAL")
        = rowGet r v :=
    fun r => rowGet_rowSet_self r _ _
  have hcolt1 : (t.setCol (v ++ "_ORIGINAL") (t.col v)).col v
      = t.rows.map (fun r => rowGet r v) := by
    rw [Table.col, ht1, List.map_map]
    exact List.map_congr_left (fun r _ => hgv r)
  have hmain : ∀ cc : Val → Val,
      setColRows v (t.setCol (v ++ "_ORIGINAL") (t.col v)).rows
          (((t.setCol (v ++ "_ORIGINAL") (t.col v)).col v).map cc)
        = t.rows.map (fun r =>
            rowSet (rowSet r (v ++ "_ORIGINAL") (rowGet r v)) v
              (cc (rowGet (rowSet r (v ++ "_ORIGINAL") (rowGet r v)) v))) := by
    intro cc
    show setColRows v (t.setCol (v ++ "_ORIGINAL") (t.col v)).rows
        (List.map cc ((t.setCol (v ++ "_ORIGINAL") (t.col v)).rows.map
          (fun r => rowGet r v))) = _
    rw [List.map_map, setColRows_map, ht1, List.map_map]
    rfl
  cases hty : spec.type with
  | category =>
    refine ⟨fun r =>
      rowSet (rowSet r (v ++ "_ORIGINAL") (rowGet r v)) v
        (coerceCategory spec.labels
          (rowGet (rowSet r (v ++ "_ORIGINAL") (rowGet r v)) v)),
      ?_, ?_, ?_⟩
    · simp only [coerceCol, hty]
      exact hmain (coerceCategory spec.labels)
    · intro r
      rw [rowGet_rowSet_self, hgv r]
      simp [coerceValue, hty]
    · intro r
      rw [rowGet_rowSet_ne _ _ _ _ (Ne.symm hvne), hgo r]
  | bool =>
    refine ⟨fun r =>
      rowSet (rowSet r (v ++ "_ORIGINAL") (rowGet r v)) v
        (coerceBool (rowGet (rowSet r (v ++ "_ORIGINAL") (rowGet r v)) v)),
      ?_, ?_, ?_⟩
    · simp only [coerceCol, hty]
      exact hmain coerceBool
    · intro r
      rw [rowGet_rowSet_self, hgv r]
      simp [coerceValue, hty]
    · intro r
      rw [rowGet_rowSet_ne _ _ _ _ (Ne.symm hvne), hgo r]
  | int =>
    refine ⟨fun r => rowSet r (v ++ "_ORIGINAL") (rowGet r v), ?_, ?_, ?_⟩
    · simp only [coerceCol, hty]
      exact ht1
    · intro r
      rw [hgv r]
      simp [coerceValue, hty]
    · exact hgo
  | float =>
    refine ⟨fun r => rowSet r (v ++ "_ORIGINAL") (rowGet r v), ?_, ?_, ?_⟩
    · simp only [coerceCol, hty]
      exact ht1
    · intro r
      rw [hgv r]
      simp [coerceValue, hty]
    · exact hgo

/-- The `_ORIGINAL` column produced by one loop iteration holds exactly the
pre-coercion values of `v`, restricted to the rows that survive the
mandatory check (all rows when the variable is not mandatory). -/
theorem preprocessStep_col_orig (L : Loader) (st : Table × List Warning)
    (v : String) (pr : String × VarSpec)
    (hf : L.vars.find? (fun p => p.1 == v) = some pr)
    {out : Table × List Warning} (h : L.preprocessStep st v = some out) :
    out.1.col (v ++ "_ORIGINAL")
      = (st.1.rows.filter (fun r =>
          !pr.2.mandatory || !(coerceValue pr.2 (rowGet r v)).isNa)).map
          (fun r => rowGet r v) := by
  obtain ⟨F, hrows, hFv, hFo⟩ := coerce_setOrig_rows pr.2 st.1 v
  rw [preprocessStep_eq_of_find? L st v pr hf] at h
  by_cases hm : pr.2.mandatory = true
  · have hfe : List.filter ((fun r => !(rowGet r v).isNa) ∘ F) st.1.rows
        = List.filter (fun r =>
            !pr.2.mandatory || !(coerceValue pr.2 (rowGet r v)).isNa)
            st.1.rows :=
      List.filter_congr (fun r _ => by
        simp only [Function.comp_apply]
        rw [hFv r, hm]
        simp)
    have hdropcol :
        ((L.drop_na (coerceCol pr.2
            (st.1.setCol (v ++ "_ORIGINAL") (st.1.col v)) v)
            st.2 v).1.col (v ++ "_ORIGINAL"))
          = (st.1.rows.filter (fun r =>
              !pr.2.mandatory || !(coerceValue pr.2 (rowGet r v)).isNa)).map
              (fun r => rowGet r v) := by
      rw [Table.col, Loader.drop_na_fst_rows, hrows, List.filter_map,
        List.map_map, hfe]
      exact List.map_congr_left (fun r _ => by
        simp only [Function.comp_apply]
        exact hFo r)
    rw [if_pos hm] at h
    by_cases hi : (pr.2.type == VarType.int) = true
    · rw [if_pos hi] at h
      cases hcast : castColInt ((L.drop_na
          (coerceCol pr.2 (st.1.setCol (v ++ "_ORIGINAL") (st.1.col v)) v)
          st.2 v).1.col v) with
      | none => rw [hcast] at h; exact absurd h (by simp)
      | some cast =>
        rw [hcast] at h
        cases Option.some.inj h
        rw [Table.col_setCol_ne _ _ _ (Ne.symm (ne_origName v))]
        exact hdropcol
    · rw [if_neg hi] at h
      cases Option.some.inj h
      exact hdropcol
  · rw [if_neg hm] at h
    cases Option.some.inj h
    have hmf : pr.2.mandatory = false := by
      rwa [Bool.not_eq_true] at hm
    have h1 : List.map ((fun r => rowGet r (v ++ "_ORIGINAL")) ∘ F) st.1.rows
        = List.map (fun r => rowGet r v) st.1.rows :=
      List.map_congr_left (fun r _ => by
        simp only [Function.comp_apply]
        exact hFo r)
    have h2 : List.filter (fun r =>
          !pr.2.mandatory || !(coerceValue pr.2 (rowGet r v)).isNa)
          st.1.rows = st.1.rows := by
      rw [hmf]
      simp
    rw [Table.col, hrows, List.map_map, h1, h2]

/-! ### Lemmas about the whole coercion pass and the derivation passes -/

theorem coercePass_append (L : Loader) (cs1 cs2 : List String)
    (st : Table × List Warning) :
    L.coercePass (cs1 ++ cs2) st
      = (L.coercePass cs1 st).bind (L.coercePass cs2) := by
  induction cs1 generalizing st with
  | nil => simp [Loader.coercePass]
  | cons c cs ih =>
    simp only [List.cons_append, Loader.coercePass]
    cases L.preprocessStep st c with
    | none => simp
    | some st' => simp [ih st']

theorem coercePass_col_sublist (L : Loader) (cs : List String)
    (st : Table × List Warning) {x : String}
    (hx : ∀ c ∈ cs, x ≠ c ∧ x ≠ c ++ "_ORIGINAL")
    {out : Table × List Warning} (h : L.coercePass cs st = some out) :
    (out.1.col x).Sublist (st.1.col x) := by
  induction cs generalizing st with
  | nil =>
    cases Option.some.inj h
    exact List.Sublist.refl _
  | cons c cs ih =>
    rw [Loader.coercePass] at h
    cases hs : L.preprocessStep st c with
    | none => rw [hs] at h; exact absurd h (by simp)
    | some st' =>
      rw [hs, Option.some_bind] at h
      have h1 := preprocessStep_col_sublist L st c
        (hx c (List.mem_cons_self c cs)).1
        (hx c (List.mem_cons_self c cs)).2 hs
      have h2 := ih st' (fun c' hc' => hx c' (List.mem_cons_of_mem _ hc')) h
      exact h2.trans h1

theorem coercePass_warnings (L : Loader) (cs : List String)
    (st : Table × List Warning) {out : Table × List Warning}
    (h : L.coercePass cs st = some out) : ∃ d, out.2 = st.2 ++ d := by
  induction cs generalizing st with
  | nil =>
    cases Option.some.inj h
    exact ⟨[], by simp⟩
  | cons c cs ih =>
    rw [Loader.coercePass] at h
    cases hs : L.preprocessStep st c with
    | none => rw [hs] at h; exact absurd h (by simp)
    | some st' =>
      rw [hs, Option.some_bind] at h
      obtain ⟨d1, hd1⟩ := preprocessStep_warnings L st c hs
      obtain ⟨d2, hd2⟩ := ih st' h
      exact ⟨d1 ++ d2, by rw [hd2, hd1, List.append_assoc]⟩

theorem coercePass_mem_cols (L : Loader) (cs : List String)
    (st : Table × List Warning) {out : Table × List Warning}
    (h : L.coercePass cs st = some out) {c : String}
    (hc : c ∈ st.1.cols) : c ∈ out.1.cols := by
  induction cs generalizing st with
  | nil =>
    cases Option.some.inj h
    exact hc
  | cons c0 cs ih =>
    rw [Loader.coercePass] at h
    cases hs : L.preprocessStep st c0 with
    | none => rw [hs] at h; exact absurd h (by simp)
    | some st' =>
      rw [hs, Option.some_bind] at h
      exact ih st' h (preprocessStep_mem_cols L st c0 hs hc)

theorem coercePass_noNa_result (L : Loader) (cs : List String)
    (st : Table × List Warning) {out : Table × List Warning}
    {v : String} {pr : String × VarSpec}
    (hf : L.vars.find? (fun p => p.1 == v) = some pr)
    (hm : pr.2.mandatory = true) (hv : v ∈ cs) (hnd : cs.Nodup)
    (hcl : ∀ c ∈ cs, v ≠ c ++ "_ORIGINAL")
    (h : L.coercePass cs st = some out) : colNoNa out.1 v := by
  induction cs generalizing st with
  | nil => cases hv
  | cons c cs ih =>
    rw [Loader.coercePass] at h
    cases hs : L.preprocessStep st c with
    | none => rw [hs] at h; exact absurd h (by simp)
    | some st' =>
      rw [hs, Option.some_bind] at h
      rcases List.mem_cons.mp hv with rfl | hv'
      · have hstart : colNoNa st'.1 v :=
          preprocessStep_noNa_self L st v pr hf hm hs
        have hx : ∀ c' ∈ cs, v ≠ c' ∧ v ≠ c' ++ "_ORIGINAL" := by
          intro c' hc'
          refine ⟨?_, hcl c' (List.mem_cons_of_mem _ hc')⟩
          intro he
          exact (List.nodup_cons.mp hnd).1 (he ▸ hc')
        exact colNoNa_of_sublist (coercePass_col_sublist L cs st' hx h)
          hstart
      · exact ih st' hv' (List.nodup_cons.mp hnd).2
          (fun c' hc' => hcl c' (List.mem_cons_of_mem _ hc')) h

/-- A derivation hook only ever appends to the warning log. -/
def CompAppends (f : Comp) : Prop :=
  ∀ cid t w out, f cid t w = some out → ∃ d, out.2 = w ++ d

theorem computeDerivedAux_id (cid : Row → String)
    (key : VarSpec → Option Comp) (l : List (String × VarSpec)) (t : Table)
    (w : List Warning) (hk : ∀ p ∈ l, key p.2 = none) :
    computeDerivedAux cid key l t w = some (t, w) := by
  induction l with
  | nil => rfl
  | cons p ps ih =>
    rw [computeDerivedAux, hk p (List.mem_cons_self p ps)]
    exact ih (fun q hq => hk q (List.mem_cons_of_mem _ hq))

theorem computeDerivedAux_col (cid : Row → String)
    (key : VarSpec → Option Comp) (l : List (String × VarSpec)) (t : Table)
    (w : List Warning) {x : String}
    (hx : ∀ p ∈ l, (key p.2).isSome → p.1 ≠ x)
    {out : Table × List Warning}
    (h : computeDerivedAux cid key l t w = some out) :
    out.1.col x = t.col x := by
  induction l generalizing t w with
  | nil =>
    cases Option.some.inj h
    rfl
  | cons p ps ih =>
    cases hk : key p.2 with
    | none =>
      simp only [computeDerivedAux, hk] at h
      exact ih _ _ (fun q hq => hx q (List.mem_cons_of_mem _ hq)) h
    | some f =>
      simp only [computeDerivedAux, hk] at h
      cases hr : f cid t w with
      | none => rw [hr] at h; exact absurd h (by simp)
      | some res =>
        rw [hr, Option.some_bind] at h
        have hp1 : p.1 ≠ x :=
          hx p (List.mem_cons_self p ps) (by rw [hk]; rfl)
        rw [ih _ _ (fun q hq => hx q (List.mem_cons_of_mem _ hq)) h]
        exact Table.col_setCol_ne _ _ _ (Ne.symm hp1)

theorem computeDerivedAux_mem_cols (cid : Row → String)
    (key : VarSpec → Option Comp) (l : List (String × VarSpec)) (t : Table)
    (w : List Warning) {out : Table × List Warning}
    (h : computeDerivedAux cid key l t w = some out) {c : String}
    (hc : c ∈ t.cols) : c ∈ out.1.cols := by
  induction l generalizing t w with
  | nil =>
    cases Option.some.inj h
    exact hc
  | cons p ps ih =>
    cases hk : key p.2 with
    | none =>
      simp only [computeDerivedAux, hk] at h
      exact ih _ _ h hc
    | some f =>
      simp only [computeDerivedAux, hk] at h
      cases hr : f cid t w with
      | none => rw [hr] at h; exact absurd h (by simp)
      | some res =>
        rw [hr, Option.some_bind] at h
        exact ih _ _ h (Table.mem_cols_setCol _ _ _ hc)

theorem computeDerivedAux_warnings (cid : Row → String)
    (key : VarSpec → Option Comp) (l : List (String × VarSpec)) (t : Table)
    (w : List Warning)
    (ha : ∀ p ∈ l, ∀ f, key p.2 = some f → CompAppends f)
    {out : Table × List Warning}
    (h : computeDerivedAux cid key l t w = some out) :
    ∃ d, out.2 = w ++ d := by
  induction l generalizing t w with
  | nil =>
    cases Option.some.inj h
    exact ⟨[], by simp⟩
  | cons p ps ih =>
    cases hk : key p.2 with
    | none =>
      simp only [computeDerivedAux, hk] at h
      exact ih _ _ (fun q hq => ha q (List.mem_cons_of_mem _ hq)) h
    | some f =>
      simp only [computeDerivedAux, hk] at h
      cases hr : f cid t w with
      | none => rw [hr] at h; exact absurd h (by simp)
      | some res =>
        rw [hr, Option.some_bind] at h
        obtain ⟨d1, hd1⟩ :=
          ha p (List.mem_cons_self p ps) f hk cid t w res hr
        obtain ⟨d2, hd2⟩ :=
          ih _ _ (fun q hq => ha q (List.mem_cons_of_mem _ hq)) h
        exact ⟨d1 ++ d2, by rw [hd2, hd1, List.append_assoc]⟩

theorem preprocess_elim (L : Loader) (t : Table) (w : List Warning)
    {out : Table × List Warning} (h : L.preprocess t w = some out) :
    ∃ st1 st2, L.compute_derived t w (fun s => s.compPre) = some st1 ∧
      L.coercePass st1.1.cols st1 = some st2 ∧
      L.compute_derived st2.1 st2.2 (fun s => s.compPost) = some out := by
  unfold Loader.preprocess at h
  cases h1 : L.compute_derived t w (fun s => s.compPre) with
  | none => rw [h1] at h; exact absurd h (by simp)
  | some st1 =>
    rw [h1, Option.some_bind] at h
    cases h2 : L.coercePass st1.1.cols st1 with
    | none => rw [h2] at h; exact absurd h (by simp)
    | some st2 =>
      rw [h2, Option.some_bind] at h
      exact ⟨st1, st2, rfl, h2, h⟩

/-- With pairwise distinct registry keys, `find?` locates exactly the
registered entry. -/
theorem find?_eq_of_nodup {l : List (String × VarSpec)}
    (hnd : (l.map Prod.fst).Nodup) {n : String} {s : VarSpec}
    (hm : (n, s) ∈ l) : l.find? (fun p => p.1 == n) = some (n, s) := by
  induction l with
  | nil => cases hm
  | cons p ps ih =>
    rcases List.mem_cons.mp hm with rfl | hm'
    · exact List.find?_cons_of_pos _ (by simp)
    · have hpn : p.1 ≠ n := by
        intro he
        have hmem : n ∈ ps.map Prod.fst :=
          List.mem_map.mpr ⟨(n, s), hm', rfl⟩
        rw [List.map_cons, List.nodup_cons] at hnd
        exact hnd.1 (he ▸ hmem)
      rw [List.find?_cons_of_neg _ (by simp [hpn])]
      exact ih (by rw [List.map_cons, List.nodup_cons] at hnd
                   exact hnd.2) hm'

/-! ### Lemmas about the variable combinators -/

theorem pyIsNan_true {v : Val} (h : pyIsNan v = some true) : v = Val.na := by
  cases v with
  | na => rfl
  | num q => simp [pyIsNan] at h
  | str s => simp [pyIsNan] at h

theorem pyIsNan_false {v : Val} (h : pyIsNan v = some false) :
    ∃ q : ℚ, v = Val.num q := by
  cases v with
  | na => simp [pyIsNan] at h
  | num q => exact ⟨q, rfl⟩
  | str s => simp [pyIsNan] at h

/-- The per-row result of `_combine_variables_row` only ever appends to the
log; the appended part and the value do not depend on the incoming log. -/
theorem combineVariablesRow_shift (cid : Row → String) (a b : String)
    (oc : OnConflict) (naValues : List Val) (r : Row) (w : List Warning) :
    combineVariablesRow cid a b oc naValues r w
      = (combineVariablesRow cid a b oc naValues r []).map
          (fun pr => (pr.1, w ++ pr.2)) := by
  cases h1 : pyIsNan (rowGet r a) with
  | none => simp [combineVariablesRow, h1]
  | some b1 =>
    cases h2 : pyIsNan (rowGet r b) with
    | none => simp [combineVariablesRow, h1, h2]
    | some b2 =>
      simp only [combineVariablesRow, h1, h2]
      split_ifs <;> try simp
      cases h3 : pyIsNan (oc.resolve (rowGet r a) (rowGet r b)) with
      | none => simp
      | some bb => cases bb <;> simp

theorem combineRowsAux_elim (cid : Row → String) (a b : String)
    (oc : OnConflict) (naValues : List Val) (rows : List Row)
    (w : List Warning) {out : List Val × List Warning}
    (h : combineRowsAux cid a b oc naValues rows w = some out) :
    out.1 = rows.map (fun r =>
      ((combineVariablesRow cid a b oc naValues r []).map Prod.fst).getD
        Val.na) ∧ ∃ d, out.2 = w ++ d := by
  induction rows generalizing w out with
  | nil =>
    cases Option.some.inj h
    exact ⟨rfl, [], by simp⟩
  | cons r rs ih =>
    rw [combineRowsAux] at h
    cases hr : combineVariablesRow cid a b oc naValues r w with
    | none => rw [hr] at h; exact absurd h (by simp)
    | some pr =>
      rw [hr, Option.some_bind] at h
      cases hq : combineRowsAux cid a b oc naValues rs pr.2 with
      | none => rw [hq] at h; exact absurd h (by simp)
      | some q =>
        rw [hq] at h
        cases Option.some.inj h
        obtain ⟨hq1, d, hd⟩ := ih pr.2 hq
        have hshift := combineVariablesRow_shift cid a b oc naValues r w
        rw [hr] at hshift
        cases hr0 : combineVariablesRow cid a b oc naValues r [] with
        | none => rw [hr0] at hshift; exact absurd hshift (by simp)
        | some pr0 =>
          rw [hr0] at hshift
          have hpr := Option.some.inj hshift
          constructor
          · simp only [List.map_cons, hr0]
            rw [← hq1]
            have : pr.1 = pr0.1 := by rw [hpr]
            rw [this]
            rfl
          · refine ⟨pr0.2 ++ d, ?_⟩
            have h2 : pr.2 = w ++ pr0.2 := by rw [hpr]
            simp only [hd, h2, List.append_assoc]

theorem multiboolToEnumRow_shift (cid : Row → String)
    (variables2 : List String) (naValues : List Val) (r : Row)
    (w : List Warning) :
    multiboolToEnumRow cid variables2 naValues r w
      = ((multiboolToEnumRow cid variables2 naValues r []).1,
         w ++ (multiboolToEnumRow cid variables2 naValues r []).2) := by
  simp only [multiboolToEnumRow]
  split_ifs <;> try simp
  cases hf : List.filter (fun v => rowGet r v == Val.num 1) variables2 with
  | nil => simp [hf]
  | cons n ns => cases ns <;> simp [hf]

theorem multiboolRowsAux_elim (cid : Row → String)
    (variables2 : List String) (naValues : List Val) (rows : List Row)
    (w : List Warning) :
    (multiboolRowsAux cid variables2 naValues rows w).1
      = rows.map (fun r => (multiboolToEnumRow cid variables2 naValues r []).1)
    ∧ ∃ d, (multiboolRowsAux cid variables2 naValues rows w).2 = w ++ d := by
  induction rows generalizing w with
  | nil => exact ⟨rfl, [], by simp [multiboolRowsAux]⟩
  | cons r rs ih =>
    have hshift := multiboolToEnumRow_shift cid variables2 naValues r w
    have hA : (multiboolRowsAux cid variables2 naValues (r :: rs) w).1
        = (multiboolToEnumRow cid variables2 naValues r w).1
          :: (multiboolRowsAux cid variables2 naValues rs
              (multiboolToEnumRow cid variables2 naValues r w).2).1 := rfl
    have hB : (multiboolRowsAux cid variables2 naValues (r :: rs) w).2
        = (multiboolRowsAux cid variables2 naValues rs
            (multiboolToEnumRow cid variables2 naValues r w).2).2 := rfl
    rw [hshift] at hA hB
    dsimp only at hA hB
    obtain ⟨ih1, d, hd⟩ :=
      ih (w ++ (multiboolToEnumRow cid variables2 naValues r []).2)
    constructor
    · rw [hA, ih1, List.map_cons]
    · refine ⟨(multiboolToEnumRow cid variables2 naValues r []).2 ++ d, ?_⟩
      rw [hB, hd, List.append_assoc]

theorem countP_add_countP_disjoint {α : Type} (p q : α → Bool)
    (l : List α) (hdisj : ∀ x ∈ l, ¬(p x = true ∧ q x = true)) :
    l.countP p + l.countP q = l.countP (fun x => p x || q x) := by
  induction l with
  | nil => rfl
  | cons x xs ih =>
    have ih' := ih (fun y hy => hdisj y (List.mem_cons_of_mem _ hy))
    rw [List.countP_cons, List.countP_cons, List.countP_cons]
    by_cases hp : p x = true
    · have hq : ¬q x = true := fun hq =>
        hdisj x (List.mem_cons_self x xs) ⟨hp, hq⟩
      simp [hp, hq, ← ih']
      omega
    · by_cases hq : q x = true
      · simp [hp, hq, ← ih']
        omega
      · simp [hp, hq, ← ih']

theorem foldl_or_mask (p : String → Bool) (vs : List String) (c : Bool) :
    vs.foldl (fun a v => a || p v) c = (c || vs.any p) := by
  induction vs generalizing c with
  | nil => simp
  | cons v vs ih => simp [ih, Bool.or_assoc]

theorem foldl_and_mask (p : String → Bool) (vs : List String) (c : Bool) :
    vs.foldl (fun a v => a && p v) c = (c && vs.all p) := by
  induction vs generalizing c with
  | nil => simp
  | cons v vs ih => simp [ih, Bool.and_assoc]

/-! ### Claim theorems -/

/-- C3: for `logical_or` (dually `logical_and`) over at least two
boolean-coded columns with values in 1.0 / 0.0 / missing, every row of the
result is 1.0 when the OR (resp. AND) over the listed variables of "value
equals 1.0" holds, 0.0 when the AND (resp. OR) of "value equals 0.0"
holds, and missing otherwise.  The first two conjuncts record that the
factories return exactly this column computation. -/
theorem c3_logical_or_and (v0 v1 : String) (rest : List String)
    (cid : Row → String) (t : Table) (w : List Warning) :
    logical_or (v0 :: v1 :: rest)
      = some (logicalOpFun (fun x y => x || y) (fun x y => x && y) v0
          (v0 :: v1 :: rest)) ∧
    logical_and (v0 :: v1 :: rest)
      = some (logicalOpFun (fun x y => x && y) (fun x y => x || y) v0
          (v0 :: v1 :: rest)) ∧
    logicalOpFun (fun x y => x || y) (fun x y => x && y) v0
        (v0 :: v1 :: rest) cid t w
      = some (t.rows.map (fun r =>
          if (v0 :: v1 :: rest).any (fun v => rowGet r v == Val.num 1)
          then Val.num 1
          else if (v0 :: v1 :: rest).all (fun v => rowGet r v == Val.num 0)
          then Val.num 0
          else Val.na), w) ∧
    logicalOpFun (fun x y => x && y) (fun x y => x || y) v0
        (v0 :: v1 :: rest) cid t w
      = some (t.rows.map (fun r =>
          if (v0 :: v1 :: rest).all (fun v => rowGet r v == Val.num 1)
          then Val.num 1
          else if (v0 :: v1 :: rest).any (fun v => rowGet r v == Val.num 0)
          then Val.num 0
          else Val.na), w) := by
  have hdisj : ∀ (vs : List String) (r : Row),
      vs.any (fun v => rowGet r v == Val.num 1) = true →
      vs.all (fun v => rowGet r v == Val.num 0) = true → False := by
    intro vs r hA hB
    obtain ⟨x, hx, hx1⟩ := List.any_eq_true.mp hA
    have hx0 := List.all_eq_true.mp hB x hx
    rw [eq_of_beq hx1] at hx0
    exact absurd (eq_of_beq hx0) (by decide)
  refine ⟨rfl, rfl, ?_, ?_⟩
  · have hmap : t.rows.map (fun r =>
        if (v0 :: v1 :: rest).foldl
            (fun a v => a && (rowGet r v == Val.num 0))
            (rowGet r v0 == Val.num 0) then Val.num 0
        else if (v0 :: v1 :: rest).foldl
            (fun a v => a || (rowGet r v == Val.num 1))
            (rowGet r v0 == Val.num 1) then Val.num 1
        else Val.na)
        = t.rows.map (fun r =>
          if (v0 :: v1 :: rest).any (fun v => rowGet r v == Val.num 1)
          then Val.num 1
          else if (v0 :: v1 :: rest).all (fun v => rowGet r v == Val.num 0)
          then Val.num 0
          else Val.na) := by
      refine List.map_congr_left (fun r _ => ?_)
      rw [foldl_or_mask, foldl_and_mask, List.any_cons, List.all_cons,
        ← Bool.or_assoc, Bool.or_self, ← Bool.and_assoc, Bool.and_self]
      by_cases hA : (rowGet r v0 == Val.num 1
          || (v1 :: rest).any fun v => rowGet r v == Val.num 1) = true
      · by_cases hB : (rowGet r v0 == Val.num 0
            && (v1 :: rest).all fun v => rowGet r v == Val.num 0) = true
        · exact (hdisj (v0 :: v1 :: rest) r
            (by rw [List.any_cons]; exact hA)
            (by rw [List.all_cons]; exact hB)).elim
        · rw [if_neg hB, if_pos hA, if_pos hA]
      · rw [if_neg hA, if_neg hA]
    exact congrArg some (congrArg (fun l => (l, w)) hmap)
  · have hmap : t.rows.map (fun r =>
        if (v0 :: v1 :: rest).foldl
            (fun a v => a || (rowGet r v == Val.num 0))
            (rowGet r v0 == Val.num 0) then Val.num 0
        else if (v0 :: v1 :: rest).foldl
            (fun a v => a && (rowGet r v == Val.num 1))
            (rowGet r v0 == Val.num 1) then Val.num 1
        else Val.na)
        = t.rows.map (fun r =>
          if (v0 :: v1 :: rest).all (fun v => rowGet r v == Val.num 1)
          then Val.num 1
          else if (v0 :: v1 :: rest).any (fun v => rowGet r v == Val.num 0)
          then Val.num 0
          else Val.na) := by
      refine List.map_congr_left (fun r _ => ?_)
      rw [foldl_or_mask, foldl_and_mask, List.any_cons, List.all_cons,
        ← Bool.or_assoc, Bool.or_self, ← Bool.and_assoc, Bool.and_self]
      by_cases hA : (rowGet r v0 == Val.num 1
          && (v1 :: rest).all fun v => rowGet r v == Val.num 1) = true
      · by_cases hB : (rowGet r v0 == Val.num 0
            || (v1 :: rest).any fun v => rowGet r v == Val.num 0) = true
        · obtain ⟨x, hx, hx0⟩ := List.any_eq_true.mp
            (show (v0 :: v1 :: rest).any
                (fun v => rowGet r v == Val.num 0) = true by
              rw [List.any_cons]; exact hB)
          have hx1 := List.all_eq_true.mp
            (show (v0 :: v1 :: rest).all
                (fun v => rowGet r v == Val.num 1) = true by
              rw [List.all_cons]; exact hA) x hx
          rw [eq_of_beq hx0] at hx1
          exact absurd (eq_of_beq hx1) (by decide)
        · rw [if_neg hB, if_pos hA, if_pos hA]
      · rw [if_neg hA, if_neg hA]
    exact congrArg some (congrArg (fun l => (l, w)) hmap)

/-- C10: `combine_variables_bool` never records a conflict warning and its
per-row result is never made missing by conflict resolution: its conflict
resolver is `lambda v1, v2: v1 or v2`, which in the conflict branch (both
values numeric, not in `na_values`, unequal) returns `v1` if `v1` is
nonzero and `v2` otherwise — always a non-missing value. -/
theorem c10_combine_variables_bool :
    (∀ a b naVals, combine_variables_bool a b naVals
        = combine_variables a b (.fn pyOrVal) naVals) ∧
    (∀ cid a b naVals (r : Row) w v w2,
        combineVariablesRow cid a b (.fn pyOrVal) naVals r w
          = some (v, w2) → w2 = w) ∧
    (∀ cid a b naVals (r : Row) w (q1 q2 : ℚ),
        rowGet r a = Val.num q1 → rowGet r b = Val.num q2 →
        Val.num q1 ∉ naVals → Val.num q2 ∉ naVals → q1 ≠ q2 →
        combineVariablesRow cid a b (.fn pyOrVal) naVals r w
            = some (pyOrVal (Val.num q1) (Val.num q2), w) ∧
          pyOrVal (Val.num q1) (Val.num q2)
            = (if q1 ≠ 0 then Val.num q1 else Val.num q2) ∧
          pyOrVal (Val.num q1) (Val.num q2) ≠ Val.na) := by
  refine ⟨fun a b naVals => rfl, ?_, ?_⟩
  · intro cid a b naVals r w v w2 h
    cases h1 : pyIsNan (rowGet r a) with
    | none =>
      simp only [combineVariablesRow, h1] at h
      exact absurd h (by simp)
    | some b1 =>
      cases h2 : pyIsNan (rowGet r b) with
      | none =>
        simp only [combineVariablesRow, h1, h2] at h
        exact absurd h (by simp)
      | some b2 =>
        by_cases P1 : (b1 = true ∨ rowGet r a ∈ naVals)
        · by_cases P2 : (b2 = true ∨ rowGet r b ∈ naVals)
          · simp [combineVariablesRow, h1, h2, P1, P2] at h
            exact h.2.symm
          · have hb2 : b2 = false := by
              cases b2
              · rfl
              · exact absurd (Or.inl rfl) P2
            have hnb : rowGet r b ∉ naVals := fun hm => P2 (Or.inr hm)
            simp [combineVariablesRow, h1, h2, P1, hb2, hnb] at h
            exact h.2.symm
        · by_cases P2 : (b2 = true ∨ rowGet r b ∈ naVals)
          · have hb1 : b1 = false := by
              cases b1
              · rfl
              · exact absurd (Or.inl rfl) P1
            have hna : rowGet r a ∉ naVals := fun hm => P1 (Or.inr hm)
            simp [combineVariablesRow, h1, h2, hb1, hna, P2] at h
            exact h.2.symm
          · have hb1 : b1 = false := by
              cases b1
              · rfl
              · exact absurd (Or.inl rfl) P1
            have hb2 : b2 = false := by
              cases b2
              · rfl
              · exact absurd (Or.inl rfl) P2
            obtain ⟨q1, hq1⟩ := pyIsNan_false (hb1 ▸ h1)
            obtain ⟨q2, hq2⟩ := pyIsNan_false (hb2 ▸ h2)
            by_cases heq : rowGet r a = rowGet r b
            · simp [combineVariablesRow, h1, h2, P1, P2, heq] at h
              exact h.2.symm
            · have hres : pyIsNan ((OnConflict.fn pyOrVal).resolve
                  (rowGet r a) (rowGet r b)) = some false := by
                show pyIsNan (pyOrVal (rowGet r a) (rowGet r b)) = some false
                rw [hq1, hq2]
                unfold pyOrVal
                split_ifs <;> rfl
              simp [combineVariablesRow, h1, h2, P1, P2, heq, hres] at h
              exact h.2.symm
  · intro cid a b naVals r w q1 q2 hva hvb hna hnb hne
    have h1 : pyIsNan (rowGet r a) = some false := by rw [hva]; rfl
    have h2 : pyIsNan (rowGet r b) = some false := by rw [hvb]; rfl
    have hca : naVals.contains (rowGet r a) = false := by
      rw [hva]
      simpa using hna
    have hcb : naVals.contains (rowGet r b) = false := by
      rw [hvb]
      simpa using hnb
    have hbe : (rowGet r a == rowGet r b) = false := by
      rw [hva, hvb]
      simp [hne]
    have hres : pyIsNan ((OnConflict.fn pyOrVal).resolve
        (rowGet r a) (rowGet r b)) = some false := by
      show pyIsNan (pyOrVal (rowGet r a) (rowGet r b)) = some false
      rw [hva, hvb]
      unfold pyOrVal
      split_ifs <;> rfl
    refine ⟨?_, ?_, ?_⟩
    · simp only [combineVariablesRow, h1, h2, hca, hcb, hbe, hres,
        Bool.or_false, Bool.false_or, Bool.and_false, Bool.false_and,
        Bool.not_false]
      rw [hva, hvb]
      simp
      rfl
    · show (if pyTruthy (Val.num q1) then Val.num q1 else Val.num q2) = _
      have hp : pyTruthy (Val.num q1) = decide (q1 ≠ 0) := rfl
      rw [hp]
      by_cases hq : q1 ≠ 0
      · rw [if_pos (by simpa using hq), if_pos hq]
      · rw [if_neg (by simpa using hq), if_neg hq]
    · unfold pyOrVal
      split_ifs <;> simp

/-- C10 witness: a concrete conflict (1.0 vs 0.0, default sentinels)
resolved by `combine_variables_bool`'s resolver: value 1.0, no warning. -/
theorem c10_witness :
    combineVariablesRow (fun _ => "c") "A" "B" (.fn pyOrVal)
        DEFAULT_NA_VALUES [("A", Val.num 1), ("B", Val.num 0)] []
      = some (pyOrVal (Val.num 1) (Val.num 0), []) ∧
    pyOrVal (Val.num 1) (Val.num 0)
      = (if (1 : ℚ) ≠ 0 then Val.num 1 else Val.num 0) ∧
    pyOrVal (Val.num 1) (Val.num 0) ≠ Val.na := by
  exact c10_combine_variables_bool.2.2 (fun _ => "c") "A" "B"
    DEFAULT_NA_VALUES [("A", Val.num 1), ("B", Val.num 0)] [] 1 0
    (by decide) (by decide) (by decide) (by decide) (by decide)

/-- C2: per-row semantics of `combine_variables(a, b, on_conflict,
na_values)`: the produced column is the row-wise map of
`_combine_variables_row`, which returns missing when both values are
missing/na, the other value when exactly one is, the common value when
both are equal, and otherwise resolves via `on_conflict` (called if
callable, used literally otherwise), recording the
"Valores contradictorios" warning keyed by the row exactly when the
conflict branch is taken and the resolved result is missing. -/
theorem c2_combine_variables :
    (∀ (cid : Row → String) a b oc naVals (t : Table) w out,
        combine_variables a b oc naVals cid t w = some out →
        out.1 = t.rows.map (fun r =>
          ((combineVariablesRow cid a b oc naVals r []).map Prod.fst).getD
            Val.na)) ∧
    (∀ (cid : Row → String) a b oc naVals (r : Row) w (b1 b2 : Bool),
        pyIsNan (rowGet r a) = some b1 → pyIsNan (rowGet r b) = some b2 →
        (((b1 = true ∨ rowGet r a ∈ naVals) ∧
          (b2 = true ∨ rowGet r b ∈ naVals)) →
           combineVariablesRow cid a b oc naVals r w = some (Val.na, w)) ∧
        ((¬(b1 = true ∨ rowGet r a ∈ naVals) ∧
          (b2 = true ∨ rowGet r b ∈ naVals)) →
           combineVariablesRow cid a b oc naVals r w
             = some (rowGet r a, w)) ∧
        (((b1 = true ∨ rowGet r a ∈ naVals) ∧
          ¬(b2 = true ∨ rowGet r b ∈ naVals)) →
           combineVariablesRow cid a b oc naVals r w
             = some (rowGet r b, w)) ∧
        ((¬(b1 = true ∨ rowGet r a ∈ naVals) ∧
          ¬(b2 = true ∨ rowGet r b ∈ naVals) ∧
          rowGet r a = rowGet r b) →
           combineVariablesRow cid a b oc naVals r w
             = some (rowGet r a, w)) ∧
        ((¬(b1 = true ∨ rowGet r a ∈ naVals) ∧
          ¬(b2 = true ∨ rowGet r b ∈ naVals) ∧
          rowGet r a ≠ rowGet r b) →
           combineVariablesRow cid a b oc naVals r w
             = (match pyIsNan (oc.resolve (rowGet r a) (rowGet r b)) with
                | none => none
                | some true =>
                    some (oc.resolve (rowGet r a) (rowGet r b),
                      w ++ [(cid r,
                        conflictMsg a (rowGet r a) b (rowGet r b))])
                | some false =>
                    some (oc.resolve (rowGet r a) (rowGet r b), w)))) ∧
    (∀ (cid : Row → String) a b oc naVals (r : Row) w v w2,
        combineVariablesRow cid a b oc naVals r w = some (v, w2) →
        w2 ≠ w →
        v = Val.na ∧ oc.resolve (rowGet r a) (rowGet r b) = Val.na ∧
          w2 = w ++ [(cid r, conflictMsg a (rowGet r a) b (rowGet r b))]) := by
  refine ⟨?_, ?_, ?_⟩
  · intro cid a b oc naVals t w out h
    exact (combineRowsAux_elim cid a b oc naVals t.rows w h).1
  · intro cid a b oc naVals r w b1 b2 h1 h2
    refine ⟨?_, ?_, ?_, ?_, ?_⟩
    · rintro ⟨P1, P2⟩
      simp [combineVariablesRow, h1, h2, P1, P2]
    · rintro ⟨P1, P2⟩
      have hb1 : b1 = false := by
        cases b1
        · rfl
        · exact absurd (Or.inl rfl) P1
      have hna : rowGet r a ∉ naVals := fun hm => P1 (Or.inr hm)
      simp [combineVariablesRow, h1, h2, hb1, hna, P2]
    · rintro ⟨P1, P2⟩
      have hb2 : b2 = false := by
        cases b2
        · rfl
        · exact absurd (Or.inl rfl) P2
      have hnb : rowGet r b ∉ naVals := fun hm => P2 (Or.inr hm)
      simp [combineVariablesRow, h1, h2, P1, hb2, hnb]
    · rintro ⟨P1, P2, heq⟩
      have hb1 : b1 = false := by
        cases b1
        · rfl
        · exact absurd (Or.inl rfl) P1
      have hna : rowGet r a ∉ naVals := fun hm => P1 (Or.inr hm)
      have hb2 : b2 = false := by
        cases b2
        · rfl
        · exact absurd (Or.inl rfl) P2
      have hnb : rowGet r b ∉ naVals := fun hm => P2 (Or.inr hm)
      simp [combineVariablesRow, h1, h2, hb1, hna, hb2, hnb, heq]
    · rintro ⟨P1, P2, hne⟩
      have hb1 : b1 = false := by
        cases b1
        · rfl
        · exact absurd (Or.inl rfl) P1
      have hna : rowGet r a ∉ naVals := fun hm => P1 (Or.inr hm)
      have hb2 : b2 = false := by
        cases b2
        · rfl
        · exact absurd (Or.inl rfl) P2
      have hnb : rowGet r b ∉ naVals := fun hm => P2 (Or.inr hm)
      simp [combineVariablesRow, h1, h2, hb1, hna, hb2, hnb, hne]
  · intro cid a b oc naVals r w v w2 h hw
    cases h1 : pyIsNan (rowGet r a) with
    | none =>
      simp only [combineVariablesRow, h1] at h
      exact absurd h (by simp)
    | some b1 =>
      cases h2 : pyIsNan (rowGet r b) with
      | none =>
        simp only [combineVariablesRow, h1, h2] at h
        exact absurd h (by simp)
      | some b2 =>
        by_cases P1 : (b1 = true ∨ rowGet r a ∈ naVals)
        · by_cases P2 : (b2 = true ∨ rowGet r b ∈ naVals)
          · simp [combineVariablesRow, h1, h2, P1, P2] at h
            exact absurd h.2.symm hw
          · have hb2 : b2 = false := by
              cases b2
              · rfl
              · exact absurd (Or.inl rfl) P2
            have hnb : rowGet r b ∉ naVals := fun hm => P2 (Or.inr hm)
            simp [combineVariablesRow, h1, h2, P1, hb2, hnb] at h
            exact absurd h.2.symm hw
        · by_cases P2 : (b2 = true ∨ rowGet r b ∈ naVals)
          · have hb1 : b1 = false := by
              cases b1
              · rfl
              · exact absurd (Or.inl rfl) P1
            have hna : rowGet r a ∉ naVals := fun hm => P1 (Or.inr hm)
            simp [combineVariablesRow, h1, h2, hb1, hna, P2] at h
            exact absurd h.2.symm hw
          · have hb1 : b1 = false := by
              cases b1
              · rfl
              · exact absurd (Or.inl rfl) P1
            have hna : rowGet r a ∉ naVals := fun hm => P1 (Or.inr hm)
            have hb2 : b2 = false := by
              cases b2
              · rfl
              · exact absurd (Or.inl rfl) P2
            have hnb : rowGet r b ∉ naVals := fun hm => P2 (Or.inr hm)
            by_cases heq : rowGet r a = rowGet r b
            · simp [combineVariablesRow, h1, h2, hb1, hna, hb2, hnb, heq]
                at h
              exact absurd h.2.symm hw
            · cases h3 : pyIsNan (oc.resolve (rowGet r a) (rowGet r b)) with
              | none =>
                simp [combineVariablesRow, h1, h2, hb1, hna, hb2, hnb, heq,
                  h3] at h
              | some bb =>
                cases bb with
                | false =>
                  simp [combineVariablesRow, h1, h2, hb1, hna, hb2, hnb,
                    heq, h3] at h
                  exact absurd h.2.symm hw
                | true =>
                  simp [combineVariablesRow, h1, h2, hb1, hna, hb2, hnb,
                    heq, h3] at h
                  exact ⟨h.1.symm.trans (pyIsNan_true h3), pyIsNan_true h3,
                    h.2.symm⟩

/-- C2 witness: the spec's own example, v1 = 5.0 vs. v2 = 7.0 with the
literal NaN resolver: result missing plus exactly one warning naming both
values. -/
theorem c2_witness :
    combineVariablesRow (fun _ => "caso1") "A" "B" (.value Val.na)
        DEFAULT_NA_VALUES [("A", Val.num 5), ("B", Val.num 7)] []
      = some (Val.na,
          [("caso1", "Valores contradictorios: A=5.0 vs. B=7.0")]) := by
  have h := ((c2_combine_variables.2.1 (fun _ => "caso1") "A" "B"
      (.value Val.na) DEFAULT_NA_VALUES
      [("A", Val.num 5), ("B", Val.num 7)] [] false false (by decide)
      (by decide)).2.2.2.2 (by decide))
  rw [h]
  decide

/-- Unfolding equation for `_multibool_to_enum_row`. -/
theorem multiboolToEnumRow_eq (cid : Row → String) (vs : List String)
    (naVals : List Val) (r : Row) (w : List Warning) :
    multiboolToEnumRow cid vs naVals r w
      = if ((vs.map (fun v => rowGet r v)).countP (fun v => v.isNa)
            + (vs.map (fun v => rowGet r v)).countP
                (fun v => naVals.contains v)
            == vs.length) = true
        then (Val.na, w)
        else match vs.filter (fun v => rowGet r v == Val.num 1) with
          | [name] => (Val.str name, w)
          | _ => (Val.na, w ++ [(cid r,
              "Multi-bool a enum - valores contradictorios: "
                ++ multiboolValueList vs r)]) := rfl

/-- When the missing marker is not itself listed among `na_values`, the
count test of `_multibool_to_enum_row` is exactly the statement "every
listed value is missing or a sentinel". -/
theorem multibool_allna_iff (vs : List String) (naVals : List Val)
    (r : Row) (hna : Val.na ∉ naVals) :
    (((vs.map (fun v => rowGet r v)).countP (fun v => v.isNa)
      + (vs.map (fun v => rowGet r v)).countP (fun v => naVals.contains v)
      == vs.length) = true)
    ↔ ∀ x ∈ vs.map (fun v => rowGet r v), x.isNa = true ∨ x ∈ naVals := by
  have hdisj : ∀ x ∈ vs.map (fun v => rowGet r v),
      ¬((fun v : Val => v.isNa) x = true
        ∧ (fun v : Val => naVals.contains v) x = true) := by
    rintro x _ ⟨hx1, hx2⟩
    have hxna : x = Val.na := by
      cases x with
      | na => rfl
      | num q => simp [Val.isNa] at hx1
      | str s => simp [Val.isNa] at hx1
    rw [hxna] at hx2
    exact hna (List.elem_iff.mp hx2)
  have hlen : vs.length = (vs.map (fun v => rowGet r v)).length := by
    rw [List.length_map]
  rw [beq_iff_eq, hlen,
    countP_add_countP_disjoint _ _ _ hdisj, List.countP_eq_length]
  constructor
  · intro h x hx
    rcases Bool.or_eq_true_iff.mp (h x hx) with h1 | h1
    · exact Or.inl h1
    · exact Or.inr (List.elem_iff.mp h1)
  · intro h x hx
    rcases h x hx with h1 | h1
    · exact Bool.or_eq_true_iff.mpr (Or.inl h1)
    · exact Bool.or_eq_true_iff.mpr (Or.inr (List.elem_iff.mpr h1))

/-- C4 (amended): provided the missing marker is not itself listed in
`na_values`, `multibool_to_enum` per row returns missing with no warning
when every listed variable is missing or a sentinel, the unique variable
name when the one-hot test finds exactly one 1.0, and otherwise missing
plus exactly one "Multi-bool a enum - valores contradictorios" warning
listing every variable and its value, keyed by the row; the produced
column is the row-wise map of this function. -/
theorem c4_multibool_to_enum (cid : Row → String) (variables2 : List String)
    (naValues : List Val) (r : Row) (w : List Warning)
    (hna : Val.na ∉ naValues) :
    ((∀ x ∈ variables2.map (fun v => rowGet r v),
        x.isNa = true ∨ x ∈ naValues) →
       multiboolToEnumRow cid variables2 naValues r w = (Val.na, w)) ∧
    (¬(∀ x ∈ variables2.map (fun v => rowGet r v),
        x.isNa = true ∨ x ∈ naValues) →
      (∀ name,
        variables2.filter (fun v => rowGet r v == Val.num 1) = [name] →
        multiboolToEnumRow cid variables2 naValues r w
          = (Val.str name, w)) ∧
      ((variables2.filter (fun v => rowGet r v == Val.num 1)).length ≠ 1 →
        multiboolToEnumRow cid variables2 naValues r w
          = (Val.na, w ++ [(cid r,
              "Multi-bool a enum - valores contradictorios: "
                ++ multiboolValueList variables2 r)]))) ∧
    (∀ (t : Table) w0 out,
        multibool_to_enum variables2 naValues cid t w0 = some out →
        out.1 = t.rows.map (fun r =>
          (multiboolToEnumRow cid variables2 naValues r []).1)) := by
  refine ⟨?_, ?_, ?_⟩
  · intro hall
    rw [multiboolToEnumRow_eq,
      if_pos ((multibool_allna_iff variables2 naValues r hna).mpr hall)]
  · intro hnall
    constructor
    · intro name hf
      rw [multiboolToEnumRow_eq, if_neg (fun hc =>
        hnall ((multibool_allna_iff variables2 naValues r hna).mp hc)), hf]
    · intro hlen
      rw [multiboolToEnumRow_eq, if_neg (fun hc =>
        hnall ((multibool_allna_iff variables2 naValues r hna).mp hc))]
      cases hf : variables2.filter (fun v => rowGet r v == Val.num 1) with
      | nil => rfl
      | cons n ns =>
        cases ns with
        | nil => exact absurd (by rw [hf]; rfl) hlen
        | cons m ms => rfl
  · intro t w0 out h
    have h0 : multiboolRowsAux cid variables2 naValues t.rows w0 = out :=
      Option.some.inj h
    rw [← h0]
    exact (multiboolRowsAux_elim cid variables2 naValues t.rows w0).1

/-- C4 counterexample: with `na_values` containing the missing marker and
the row A = missing, B = 5.0, not every value is missing-or-sentinel and
no value equals 1.0, so the claim as stated demands a warning — yet the
code's count test double-counts A (pandas `isna` and `isin` both match)
and returns missing with NO warning. -/
theorem c4_counterexample :
    (¬ ∀ x ∈ (["A", "B"].map
        (fun v => rowGet [("A", Val.na), ("B", Val.num 5)] v)),
        x.isNa = true ∨ x ∈ [Val.na]) ∧
    ((["A", "B"].filter
        (fun v => rowGet [("A", Val.na), ("B", Val.num 5)] v
          == Val.num 1)).length ≠ 1) ∧
    multiboolToEnumRow (fun _ => "case0") ["A", "B"] [Val.na]
        [("A", Val.na), ("B", Val.num 5)] []
      = (Val.na, []) := by
  decide

/-- C4 witness: the spec's own example, one-hot row A = 1.0, B = 0.0,
C = 0.0 named enum label "A". -/
theorem c4_witness :
    multiboolToEnumRow (fun _ => "case0") ["A", "B", "C"]
        DEFAULT_NA_VALUES
        [("A", Val.num 1), ("B", Val.num 0), ("C", Val.num 0)] []
      = (Val.str "A", []) := by
  exact ((c4_multibool_to_enum (fun _ => "case0") ["A", "B", "C"]
      DEFAULT_NA_VALUES
      [("A", Val.num 1), ("B", Val.num 0), ("C", Val.num 0)] []
      (by decide)).2.1 (by decide)).1 "A" (by decide)

/-- C1 (amended): `_drop_na` appends exactly one "<V> perdida" warning,
keyed via the case-identifier function, for every row with a missing value
in V — in row order, before dropping exactly those rows; and for every
mandatory variable V whose column exists after the pre-derivation pass and
that is not post-derived (with distinct registry keys, distinct columns
and no column named like another's `_ORIGINAL` copy), the preprocessed
table has no missing value in column V. -/
theorem c1_mandatory_enforced :
    (∀ (L : Loader) (t : Table) w v,
        L.drop_na t w v
          = ({ cols := t.cols,
               rows := t.rows.filter (fun r => !(rowGet r v).isNa) },
             w ++ (t.rows.filter (fun r => (rowGet r v).isNa)).map
               (fun r => (L.case_id_fun r, v ++ " perdida")))) ∧
    (∀ (L : Loader) (t : Table) w tf wf st1 (V : String) spec,
        L.preprocess t w = some (tf, wf) →
        L.compute_derived t w (fun s => s.compPre) = some st1 →
        L.vars.find? (fun p => p.1 == V) = some (V, spec) →
        spec.mandatory = true → spec.compPost = none →
        V ∈ st1.1.cols → st1.1.cols.Nodup →
        (L.vars.map Prod.fst).Nodup →
        (∀ c ∈ st1.1.cols, V ≠ c ++ "_ORIGINAL") →
        colNoNa tf V) := by
  constructor
  · intro L t w v
    rfl
  · intro L t w tf wf st1 V spec hpp hpre hf hm hpost hVmem hndcols hndkeys
      hcl
    obtain ⟨st1b, st2, hpre2, hpass, hpostpass⟩ := preprocess_elim L t w hpp
    rw [hpre] at hpre2
    cases Option.some.inj hpre2
    have hnona2 : colNoNa st2.1 V :=
      coercePass_noNa_result L st1.1.cols st1 hf hm hVmem hndcols hcl hpass
    have hcol : tf.col V = st2.1.col V := by
      have hx : ∀ p ∈ L.vars, (p.2.compPost).isSome → p.1 ≠ V := by
        intro p hp hsome he
        have hpv : (V, p.2) ∈ L.vars := by rw [← he]; exact hp
        have hfp := find?_eq_of_nodup hndkeys hpv
        rw [hf] at hfp
        have hsp : spec = p.2 :=
          (Prod.ext_iff.mp (Option.some.inj hfp)).2
        rw [← hsp, hpost] at hsome
        exact absurd hsome (by simp)
      exact computeDerivedAux_col L.case_id_fun (fun s => s.compPost)
        L.vars st2.1 st2.2 hx hpostpass
    intro y hy
    rw [hcol] at hy
    exact hnona2 y hy

/-- Loader for the C1 counterexample: variable V is mandatory but
post-derived; its post hook fills the column with missing values. -/
def LC1 : Loader :=
  { vars := [("ID", { type := VarType.float }),
             ("V", { type := VarType.float, mandatory := true,
                     compPost := some (fun _ t w =>
                       some (t.rows.map (fun _ => Val.na), w)) })],
    case_id_fun := fun _ => "id" }

/-- Input table for the C1 counterexample. -/
def TC1 : Table := { cols := ["ID"], rows := [[("ID", Val.num 1)]] }

/-- C1 counterexample: V is mandatory, yet after `_preprocess` the output
table has a row with a missing value in column V — the post-derivation
pass runs after mandatory enforcement, so a mandatory post-derived
variable is never checked. -/
theorem c1_counterexample :
    (LC1.vars.find? (fun p => p.1 == "V")).map (fun p => p.2.mandatory)
      = some true ∧
    ∃ tf wf, LC1.preprocess TC1 [] = some (tf, wf) ∧
      ∃ r ∈ tf.rows, (rowGet r "V").isNa = true := by
  refine ⟨rfl, Table.mk ["ID", "ID_ORIGINAL", "V"]
      [[("ID", Val.num 1), ("ID_ORIGINAL", Val.num 1), ("V", Val.na)]],
      [], ?_, ?_⟩
  · rfl
  · exact ⟨[("ID", Val.num 1), ("ID_ORIGINAL", Val.num 1), ("V", Val.na)],
      by decide, by decide⟩

/-- Loader for the C1 and C5 witnesses: one mandatory Float variable. -/
def L1W : Loader :=
  { vars := [("M", { type := VarType.float, mandatory := true })],
    case_id_fun := fun _ => "c" }

/-- Input table for the C1 and C5 witnesses. -/
def T1W : Table :=
  { cols := ["M"], rows := [[("M", Val.na)], [("M", Val.num 3)]] }

/-- C1 witness: the concrete mandatory variable M, one missing row: the
preprocessed table has no missing M. -/
theorem c1_witness :
    colNoNa (Table.mk ["M", "M_ORIGINAL"]
      [[("M", Val.num 3), ("M_ORIGINAL", Val.num 3)]]) "M" := by
  exact c1_mandatory_enforced.2 L1W T1W []
    (Table.mk ["M", "M_ORIGINAL"]
      [[("M", Val.num 3), ("M_ORIGINAL", Val.num 3)]])
    [("c", "M perdida")] (T1W, []) "M"
    { type := VarType.float, mandatory := true }
    rfl rfl rfl rfl rfl (by decide) (by decide) (by decide) (by decide)

/-- Appending the same suffix is injective on strings. -/
theorem string_append_right_cancel {a b s : String} (h : a ++ s = b ++ s) :
    a = b := by
  apply String.ext
  have hd := congrArg String.data h
  rw [String.data_append, String.data_append] at hd
  exact List.append_cancel_right hd

/-- C5: for every column v processed by the coercion loop, the sibling
`v_ORIGINAL` is created from v's pre-coercion values (exactly the
survivors of v's own mandatory check; all rows when v is not mandatory),
later loop iterations and the post-derivation pass only ever drop whole
rows from it (its surviving per-row values are never modified), and the
`_ORIGINAL` column — absent from the loop's column snapshot — is itself
never coerced. -/
theorem c5_original_columns (L : Loader) (t : Table) (w : List Warning)
    (tf : Table) (wf : List Warning) (st1 : Table × List Warning)
    (l1 : List String) (v : String) (l2 : List String) (spec : VarSpec)
    (hpp : L.preprocess t w = some (tf, wf))
    (hpre : L.compute_derived t w (fun s => s.compPre) = some st1)
    (hcols : st1.1.cols = l1 ++ v :: l2)
    (hf : L.vars.find? (fun p => p.1 == v) = some (v, spec))
    (hv2 : v ∉ l2)
    (horig : v ++ "_ORIGINAL" ∉ st1.1.cols)
    (hpostw : ∀ p ∈ L.vars, (p.2.compPost).isSome →
      p.1 ≠ v ++ "_ORIGINAL") :
    ∃ stm stv,
      L.coercePass l1 st1 = some stm ∧
      L.preprocessStep stm v = some stv ∧
      stv.1.col (v ++ "_ORIGINAL")
        = (stm.1.rows.filter (fun r =>
            !spec.mandatory || !(coerceValue spec (rowGet r v)).isNa)).map
            (fun r => rowGet r v) ∧
      (spec.mandatory = false →
        stv.1.col (v ++ "_ORIGINAL") = stm.1.col v) ∧
      (v ++ "_ORIGINAL") ∈ tf.cols ∧
      (tf.col (v ++ "_ORIGINAL")).Sublist
        (stv.1.col (v ++ "_ORIGINAL")) := by
  obtain ⟨st1b, st2, hpre2, hpass, hpostpass⟩ := preprocess_elim L t w hpp
  rw [hpre] at hpre2
  cases Option.some.inj hpre2
  rw [hcols, coercePass_append] at hpass
  cases hm : L.coercePass l1 st1 with
  | none => rw [hm] at hpass; exact absurd hpass (by simp)
  | some stm =>
    rw [hm, Option.some_bind, Loader.coercePass] at hpass
    cases hs : L.preprocessStep stm v with
    | none => rw [hs] at hpass; exact absurd hpass (by simp)
    | some stv =>
      rw [hs, Option.some_bind] at hpass
      refine ⟨stm, stv, rfl, hs, ?_, ?_, ?_, ?_⟩
      · exact preprocessStep_col_orig L stm v (v, spec) hf hs
      · intro hmf
        rw [preprocessStep_col_orig L stm v (v, spec) hf hs]
        have : (stm.1.rows.filter (fun r =>
            !spec.mandatory ||
              !(coerceValue spec (rowGet r v)).isNa)) = stm.1.rows := by
          rw [hmf]
          simp
        rw [this]
        rfl
      · have h1 : (v ++ "_ORIGINAL") ∈ stv.1.cols :=
          preprocessStep_orig_mem_cols L stm v hs
        have h2 : (v ++ "_ORIGINAL") ∈ st2.1.cols :=
          coercePass_mem_cols L l2 stv hpass h1
        exact computeDerivedAux_mem_cols L.case_id_fun
          (fun s => s.compPost) L.vars st2.1 st2.2 hpostpass h2
      · have hx : ∀ c ∈ l2, (v ++ "_ORIGINAL") ≠ c
            ∧ (v ++ "_ORIGINAL") ≠ c ++ "_ORIGINAL" := by
          intro c hc
          constructor
          · intro he
            exact horig (he ▸ (hcols ▸ List.mem_append_right l1
              (List.mem_cons_of_mem v hc)))
          · intro he
            exact hv2 (string_append_right_cancel he ▸ hc)
        have hsub : (st2.1.col (v ++ "_ORIGINAL")).Sublist
            (stv.1.col (v ++ "_ORIGINAL")) :=
          coercePass_col_sublist L l2 stv hx hpass
        have heqf : tf.col (v ++ "_ORIGINAL") = st2.1.col (v ++ "_ORIGINAL") :=
          computeDerivedAux_col L.case_id_fun (fun s => s.compPost)
            L.vars st2.1 st2.2 hpostw hpostpass
        rw [heqf]
        exact hsub

/-- C5 witness: the concrete loader of the C1 witness; M_ORIGINAL is
created with M's pre-coercion values and survives to the output. -/
theorem c5_witness :
    ∃ stm stv,
      L1W.coercePass [] (T1W, []) = some stm ∧
      L1W.preprocessStep stm "M" = some stv ∧
      stv.1.col ("M" ++ "_ORIGINAL")
        = (stm.1.rows.filter (fun r =>
            !(VarSpec.mk VarType.float [] true none none).mandatory ||
              !(coerceValue
                  (VarSpec.mk VarType.float [] true none none)
                  (rowGet r "M")).isNa)).map
            (fun r => rowGet r "M") ∧
      ((VarSpec.mk VarType.float [] true none none).mandatory = false →
        stv.1.col ("M" ++ "_ORIGINAL") = stm.1.col "M") ∧
      ("M" ++ "_ORIGINAL") ∈ (Table.mk ["M", "M_ORIGINAL"]
        [[("M", Val.num 3), ("M_ORIGINAL", Val.num 3)]]).cols ∧
      ((Table.mk ["M", "M_ORIGINAL"]
          [[("M", Val.num 3), ("M_ORIGINAL", Val.num 3)]]).col
          ("M" ++ "_ORIGINAL")).Sublist
        (stv.1.col ("M" ++ "_ORIGINAL")) := by
  exact c5_original_columns L1W T1W []
    (Table.mk ["M", "M_ORIGINAL"]
      [[("M", Val.num 3), ("M_ORIGINAL", Val.num 3)]])
    [("c", "M perdida")] (T1W, []) [] "M" []
    (VarSpec.mk VarType.float [] true none none)
    rfl rfl rfl rfl (by decide) (by decide)
    (by intro p hp hsome
        simp [L1W] at hp
        rw [hp] at hsome
        exact absurd hsome (by simp))

/-- C6: dropping rows for a mandatory variable removes whole rows (every
column), the loop threads the reduced table into the remaining columns
(the pass over `cs1 ++ cs2` runs `cs2` on the result of `cs1`), and for a
mandatory Int variable the int64 cast is applied exactly to the column as
it stands after the drop — which contains no missing value. -/
theorem c6_global_row_drop :
    (∀ (L : Loader) (t : Table) w v,
        (L.drop_na t w v).1.cols = t.cols ∧
        (L.drop_na t w v).1.rows
          = t.rows.filter (fun r => !(rowGet r v).isNa)) ∧
    (∀ (L : Loader) cs1 cs2 (st : Table × List Warning),
        L.coercePass (cs1 ++ cs2) st
          = (L.coercePass cs1 st).bind (L.coercePass cs2)) ∧
    (∀ (L : Loader) (t : Table) w v, colNoNa (L.drop_na t w v).1 v) ∧
    (∀ (L : Loader) (st : Table × List Warning) v pr,
        L.vars.find? (fun p => p.1 == v) = some pr →
        pr.2.mandatory = true → pr.2.type = VarType.int →
        L.preprocessStep st v
          = (castColInt ((L.drop_na (coerceCol pr.2
              (st.1.setCol (v ++ "_ORIGINAL") (st.1.col v)) v)
              st.2 v).1.col v)).map
            (fun cast =>
              ((L.drop_na (coerceCol pr.2
                  (st.1.setCol (v ++ "_ORIGINAL") (st.1.col v)) v)
                  st.2 v).1.setCol v cast,
               (L.drop_na (coerceCol pr.2
                  (st.1.setCol (v ++ "_ORIGINAL") (st.1.col v)) v)
                  st.2 v).2)) ∧
        ∀ x ∈ (L.drop_na (coerceCol pr.2
            (st.1.setCol (v ++ "_ORIGINAL") (st.1.col v)) v)
            st.2 v).1.col v, x.isNa = false) := by
  refine ⟨fun L t w v => ⟨rfl, rfl⟩, coercePass_append, Loader.drop_na_noNa,
    ?_⟩
  intro L st v pr hf hm hi
  constructor
  · rw [preprocessStep_eq_of_find? L st v pr hf, if_pos hm,
      if_pos (by rw [hi]; rfl)]
  · intro x hx
    exact Loader.drop_na_noNa L _ st.2 v x hx

/-- Loader for the C6 witness: one mandatory Int variable. -/
def L6W : Loader :=
  { vars := [("N", { type := VarType.int, mandatory := true })],
    case_id_fun := fun _ => "k" }

/-- Input table for the C6 witness. -/
def T6W : Table :=
  { cols := ["N"], rows := [[("N", Val.num 2)], [("N", Val.na)]] }

/-- C6 witness: concrete mandatory Int column with one missing row: the
step is exactly drop-then-cast and the post-drop column has no missing
value. -/
theorem c6_witness :
    L6W.preprocessStep (T6W, []) "N"
      = (castColInt ((L6W.drop_na (coerceCol
          (VarSpec.mk VarType.int [] true none none)
          (T6W.setCol ("N" ++ "_ORIGINAL") (T6W.col "N")) "N")
          [] "N").1.col "N")).map
        (fun cast =>
          ((L6W.drop_na (coerceCol
              (VarSpec.mk VarType.int [] true none none)
              (T6W.setCol ("N" ++ "_ORIGINAL") (T6W.col "N")) "N")
              [] "N").1.setCol "N" cast,
           (L6W.drop_na (coerceCol
              (VarSpec.mk VarType.int [] true none none)
              (T6W.setCol ("N" ++ "_ORIGINAL") (T6W.col "N")) "N")
              [] "N").2)) ∧
    ∀ x ∈ (L6W.drop_na (coerceCol
        (VarSpec.mk VarType.int [] true none none)
        (T6W.setCol ("N" ++ "_ORIGINAL") (T6W.col "N")) "N")
        [] "N").1.col "N", x.isNa = false := by
  exact c6_global_row_drop.2.2.2 L6W (T6W, []) "N"
    ("N", VarSpec.mk VarType.int [] true none none) rfl rfl rfl

/-! ### Lemmas about load_data and totality of preprocessing -/

theorem load_data_elim (L : Loader) (f : CsvFile) (naVals : List Val)
    (w0 : List Warning) {t : Table} {w : List Warning} {rep : Report}
    (h : L.load_data (some f) naVals w0 = .ok (t, w, rep)) :
    ∃ df, readCsv f (csvVarnames L) naVals = some df ∧
      L.preprocess df w0 = some (t, w) ∧
      rep = { resultId := "root", tableId := "warnings",
              title := "Warnings", headings := ["Caso", ""], rows := w } := by
  simp only [Loader.load_data] at h
  split at h
  · exact absurd h (by simp)
  · split at h
    · exact absurd h (by simp)
    · rename_i o1 df hdf o2 st hst
      have h2 := Except.ok.inj h
      have h3 : st.1 = t := congrArg Prod.fst h2
      have h4 : st.2 = w := congrArg (fun x => x.2.1) h2
      have h5 := congrArg (fun x => x.2.2) h2
      simp only at h5
      refine ⟨df, hdf, ?_, ?_⟩
      · rw [hst, ← h3, ← h4]
      · rw [← h5, h4]

theorem preprocessStep_total (L : Loader) (st : Table × List Warning)
    (c : String) (pr : String × VarSpec)
    (hf : L.vars.find? (fun p => p.1 == c) = some pr)
    (hnum : ∀ x ∈ st.1.col c, x.isStr = false) :
    ∃ out, L.preprocessStep st c = some out := by
  rw [preprocessStep_eq_of_find? L st c pr hf]
  by_cases hm : pr.2.mandatory = true
  · rw [if_pos hm]
    by_cases hi : (pr.2.type == VarType.int) = true
    · rw [if_pos hi]
      have hti : pr.2.type = VarType.int := by
        rwa [beq_iff_eq] at hi
      have hcoleq : (coerceCol pr.2
          (st.1.setCol (c ++ "_ORIGINAL") (st.1.col c)) c).col c
            = st.1.col c := by
        have h1 : (coerceCol pr.2
            (st.1.setCol (c ++ "_ORIGINAL") (st.1.col c)) c) =
            st.1.setCol (c ++ "_ORIGINAL") (st.1.col c) := by
          simp [coerceCol, hti]
        rw [h1, Table.col_setCol_ne _ _ _ (ne_origName c)]
      have hcast : ∀ x ∈ (L.drop_na (coerceCol pr.2
          (st.1.setCol (c ++ "_ORIGINAL") (st.1.col c)) c)
          st.2 c).1.col c, x.isNa = false ∧ x.isStr = false := by
        intro x hx
        refine ⟨Loader.drop_na_noNa L _ st.2 c x hx, ?_⟩
        have hsub := Loader.drop_na_col_sublist L (coerceCol pr.2
          (st.1.setCol (c ++ "_ORIGINAL") (st.1.col c)) c) st.2 c c
        rw [hcoleq] at hsub
        exact hnum x (hsub.subset hx)
      obtain ⟨out, hout⟩ := castColInt_isSome hcast
      rw [hout]
      exact ⟨_, rfl⟩
    · rw [if_neg hi]
      exact ⟨_, rfl⟩
  · rw [if_neg hm]
    exact ⟨_, rfl⟩

theorem coercePass_total (L : Loader) (cs : List String)
    (st : Table × List Warning)
    (hfind : ∀ c ∈ cs, ∃ pr, L.vars.find? (fun p => p.1 == c) = some pr)
    (hnd : cs.Nodup)
    (hcl : ∀ a ∈ cs, ∀ b ∈ cs, b ≠ a ++ "_ORIGINAL")
    (hnum : ∀ c ∈ cs, ∀ x ∈ st.1.col c, x.isStr = false) :
    ∃ out, L.coercePass cs st = some out := by
  induction cs generalizing st with
  | nil => exact ⟨st, rfl⟩
  | cons c cs ih =>
    obtain ⟨pr, hpr⟩ := hfind c (List.mem_cons_self c cs)
    obtain ⟨st', hst'⟩ := preprocessStep_total L st c pr hpr
      (hnum c (List.mem_cons_self c cs))
    have hnum' : ∀ c' ∈ cs, ∀ x ∈ st'.1.col c', x.isStr = false := by
      intro c' hc' x hx
      have hne1 : c' ≠ c := by
        intro he
        exact (List.nodup_cons.mp hnd).1 (he ▸ hc')
      have hne2 : c' ≠ c ++ "_ORIGINAL" :=
        hcl c (List.mem_cons_self c cs) c' (List.mem_cons_of_mem _ hc')
      have hsub := preprocessStep_col_sublist L st c hne1 hne2 hst'
      exact hnum c' (List.mem_cons_of_mem _ hc') x (hsub.subset hx)
    obtain ⟨out, hout⟩ := ih st'
      (fun c' hc' => hfind c' (List.mem_cons_of_mem _ hc'))
      (List.nodup_cons.mp hnd).2
      (fun a ha b hb => hcl a (List.mem_cons_of_mem _ ha) b
        (List.mem_cons_of_mem _ hb))
      hnum'
    exact ⟨out, by rw [Loader.coercePass, hst', Option.some_bind, hout]⟩

/-- C7: `load_data` reads from the file exactly the declared variables
whose spec has neither computation hook (derived variables are never
requested from the file, and `readCsv` keeps exactly the requested
columns), and on success it publishes the accumulated warnings to the
report sink as a two-column table with fixed id "warnings" under "root"
and fixed headings ["Caso", ""]. -/
theorem c7_load_reads_and_publishes :
    (∀ (L : Loader) (name : String),
        name ∈ csvVarnames L
          ↔ ∃ spec, (name, spec) ∈ L.vars ∧ spec.compPre = none
              ∧ spec.compPost = none) ∧
    (∀ (f : CsvFile) usecols naVals df,
        readCsv f usecols naVals = some df →
        df.cols = f.header.filter (fun c => usecols.contains c)) ∧
    (∀ (L : Loader) f naVals w0 (t : Table) w rep,
        L.load_data (some f) naVals w0 = .ok (t, w, rep) →
        rep = { resultId := "root", tableId := "warnings",
                title := "Warnings", headings := ["Caso", ""], rows := w } ∧
        ∃ df, readCsv f (csvVarnames L) naVals = some df ∧
          df.cols = f.header.filter
            (fun c => (csvVarnames L).contains c) ∧
          L.preprocess df w0 = some (t, w)) := by
  have hreadcols : ∀ (f : CsvFile) usecols naVals df,
      readCsv f usecols naVals = some df →
      df.cols = f.header.filter (fun c => usecols.contains c) := by
    intro f usecols naVals df h
    unfold readCsv at h
    by_cases hc : (usecols.all (fun c => f.header.contains c)) = true
    · rw [if_pos hc] at h
      exact (congrArg Table.cols (Option.some.inj h)).symm
    · rw [if_neg hc] at h
      exact absurd h (by simp)
  refine ⟨?_, hreadcols, ?_⟩
  · intro L name
    unfold csvVarnames
    constructor
    · intro h
      obtain ⟨p, hp, hname⟩ := List.mem_map.mp h
      obtain ⟨hpv, hcond⟩ := List.mem_filter.mp hp
      rw [Bool.and_eq_true, Option.isNone_iff_eq_none,
        Option.isNone_iff_eq_none] at hcond
      refine ⟨p.2, ?_, hcond.1, hcond.2⟩
      rw [← hname]
      exact hpv
    · rintro ⟨spec, hm, hpre, hpost⟩
      exact List.mem_map.mpr ⟨(name, spec),
        List.mem_filter.mpr ⟨hm, by simp [hpre, hpost]⟩, rfl⟩
  · intro L f naVals w0 t w rep h
    obtain ⟨df, h1, h2, h3⟩ := load_data_elim L f naVals w0 h
    exact ⟨h3, df, h1, hreadcols f (csvVarnames L) naVals df h1, h2⟩

/-- Loader for the C7 witness. -/
def L7W : Loader :=
  { vars := [("A", { type := VarType.float })],
    case_id_fun := fun _ => "w" }

/-- File for the C7 witness: an extra column X is present and ignored. -/
def F7W : CsvFile :=
  { header := ["A", "X"], rows := [[Val.num 1, Val.num 2]] }

/-- C7 witness: the concrete load publishes the fixed "warnings" report
and reads only column A. -/
theorem c7_witness :
    ∃ (t : Table) (w : List Warning) (rep : Report),
      L7W.load_data (some F7W) [] [] = .ok (t, w, rep) ∧
      rep = { resultId := "root", tableId := "warnings",
              title := "Warnings", headings := ["Caso", ""], rows := w } ∧
      ∃ df, readCsv F7W (csvVarnames L7W) [] = some df ∧
        df.cols = F7W.header.filter
          (fun c => (csvVarnames L7W).contains c) ∧
        L7W.preprocess df [] = some (t, w) := by
  refine ⟨_, _, _, rfl, ?_⟩
  exact c7_load_reads_and_publishes.2.2 L7W F7W [] [] _ _ _ rfl

/-- C8 (amended): an unreadable path fails with FileError; a declared
non-derived variable absent from the header fails with ColumnError
(producing no table); and for a hook-free registry over a table whose
values are numeric-or-missing, with declared, pairwise distinct columns
free of `_ORIGINAL` name clashes, preprocessing always completes —
missing mandatory values only drop rows and warn.  (As stated, the claim
fails: a non-numeric value in a mandatory Int column aborts the load, see
the counterexample.) -/
theorem c8_error_handling :
    (∀ (L : Loader) naVals w0,
        L.load_data none naVals w0 = .error LoadErr.file) ∧
    (∀ (L : Loader) (f : CsvFile) naVals w0 name,
        name ∈ csvVarnames L → name ∉ f.header →
        L.load_data (some f) naVals w0 = .error LoadErr.column) ∧
    (∀ (L : Loader) (t : Table) w,
        (∀ p ∈ L.vars, p.2.compPre = none ∧ p.2.compPost = none) →
        (∀ c ∈ t.cols, ∃ pr,
          L.vars.find? (fun p => p.1 == c) = some pr) →
        t.cols.Nodup →
        (∀ a ∈ t.cols, ∀ b ∈ t.cols, b ≠ a ++ "_ORIGINAL") →
        (∀ c ∈ t.cols, ∀ x ∈ t.col c, x.isStr = false) →
        ∃ out, L.preprocess t w = some out) := by
  refine ⟨fun L naVals w0 => rfl, ?_, ?_⟩
  · intro L f naVals w0 name hmem habs
    have hall : ((csvVarnames L).all
        (fun c => f.header.contains c)) = false := by
      cases hv : ((csvVarnames L).all (fun c => f.header.contains c)) with
      | false => rfl
      | true =>
        have := List.all_eq_true.mp hv name hmem
        exact absurd (List.elem_iff.mp this) habs
    have hread : readCsv f (csvVarnames L) naVals = none := by
      unfold readCsv
      rw [if_neg (by rw [hall]; simp)]
    simp only [Loader.load_data, hread]
  · intro L t w hhooks hfind hnd hcl hnum
    have hpre : L.compute_derived t w (fun s => s.compPre)
        = some (t, w) :=
      computeDerivedAux_id _ _ _ _ _ (fun p hp => (hhooks p hp).1)
    obtain ⟨st2, hpass⟩ := coercePass_total L t.cols (t, w) hfind hnd hcl
      hnum
    have hpost : L.compute_derived st2.1 st2.2 (fun s => s.compPost)
        = some (st2.1, st2.2) :=
      computeDerivedAux_id _ _ _ _ _ (fun p hp => (hhooks p hp).2)
    refine ⟨st2, ?_⟩
    simp only [Loader.preprocess, hpre, Option.some_bind]
    rw [hpass, Option.some_bind, hpost]

/-- Loader for the C8 counterexample: X is a mandatory Int variable. -/
def L8C : Loader :=
  { vars := [("X", { type := VarType.int, mandatory := true })],
    case_id_fun := fun _ => "z" }

/-- File for the C8 counterexample: X holds the non-numeric text "a". -/
def F8C : CsvFile := { header := ["X"], rows := [[Val.str "a"]] }

/-- C8 counterexample: the file is readable and the declared column is
present, yet the load aborts (the int64 cast of the text value raises) —
contradicting "for every input table, preprocessing completes". -/
theorem c8_counterexample :
    "X" ∈ F8C.header ∧ csvVarnames L8C = ["X"] ∧
    L8C.load_data (some F8C) [] [] = .error LoadErr.crash := by
  exact ⟨by decide, rfl, rfl⟩

/-- C8 witness: the C1 witness loader (hook-free, numeric table with a
missing mandatory value) preprocesses successfully. -/
theorem c8_witness : ∃ out, L1W.preprocess T1W [] = some out := by
  refine c8_error_handling.2.2 L1W T1W [] ?_ ?_ (by decide) (by decide)
    (by decide)
  · intro p hp
    simp only [L1W, List.mem_singleton] at hp
    rw [hp]
    exact ⟨rfl, rfl⟩
  · intro c hc
    simp only [T1W, List.mem_singleton] at hc
    rw [hc]
    exact ⟨("M", { type := VarType.float, mandatory := true }), rfl⟩

/-- C9: the warning log is append-only.  (1) `add_warning` appends exactly
one `(case_id, text)` pair at the end, deriving the identifier via
`case_id_fun` when given a row; (2) whenever every computation hook of the
registry only appends to the log, preprocessing leaves the initial log as
a prefix of the final one (nothing is removed, reordered or deduplicated);
(3) two consecutive loads on the same loader: each report publishes the
full log at that point, and the second log extends the first. -/
theorem c9_warning_log_append_only :
    (∀ (L : Loader) (w : List Warning) (c : CaseId) (text : String),
        ∃ id, L.add_warning w c text = w ++ [(id, text)] ∧
          (∀ s, c = CaseId.str s → id = s) ∧
          (∀ r, c = CaseId.series r → id = L.case_id_fun r)) ∧
    (∀ (L : Loader),
        (∀ p ∈ L.vars,
          (∀ f, p.2.compPre = some f → CompAppends f) ∧
          (∀ f, p.2.compPost = some f → CompAppends f)) →
        ∀ (t : Table) (w : List Warning) out,
          L.preprocess t w = some out → ∃ d, out.2 = w ++ d) ∧
    (∀ (L : Loader),
        (∀ p ∈ L.vars,
          (∀ f, p.2.compPre = some f → CompAppends f) ∧
          (∀ f, p.2.compPost = some f → CompAppends f)) →
        ∀ f1 f2 naVals1 naVals2 w0 (t1 : Table) w1 rep1
          (t2 : Table) w2 rep2,
          L.load_data (some f1) naVals1 w0 = .ok (t1, w1, rep1) →
          L.load_data (some f2) naVals2 w1 = .ok (t2, w2, rep2) →
          rep1.rows = w1 ∧ rep2.rows = w2 ∧
          (∃ d0, w1 = w0 ++ d0) ∧ (∃ d, w2 = w1 ++ d)) := by
  have hpp : ∀ (L : Loader),
      (∀ p ∈ L.vars,
        (∀ f, p.2.compPre = some f → CompAppends f) ∧
        (∀ f, p.2.compPost = some f → CompAppends f)) →
      ∀ (t : Table) (w : List Warning) out,
        L.preprocess t w = some out → ∃ d, out.2 = w ++ d := by
    intro L hhooks t w out h
    obtain ⟨st1, st2, h1, h2, h3⟩ := preprocess_elim L t w h
    obtain ⟨d1, hd1⟩ := computeDerivedAux_warnings L.case_id_fun
      (fun s => s.compPre) L.vars t w
      (fun p hp => (hhooks p hp).1) h1
    obtain ⟨d2, hd2⟩ := coercePass_warnings L st1.1.cols st1 h2
    obtain ⟨d3, hd3⟩ := computeDerivedAux_warnings L.case_id_fun
      (fun s => s.compPost) L.vars st2.1 st2.2
      (fun p hp => (hhooks p hp).2) h3
    refine ⟨d1 ++ d2 ++ d3, ?_⟩
    rw [hd3, hd2, hd1]
    simp [List.append_assoc]
  refine ⟨?_, hpp, ?_⟩
  · intro L w c text
    cases c with
    | str s =>
      exact ⟨s, rfl, fun s' h => by cases h; rfl,
        fun r h => Option.noConfusion (congrArg (fun x =>
          match x with | CaseId.str a => some a | _ => none) h)⟩
    | series r =>
      exact ⟨L.case_id_fun r, rfl,
        fun s h => Option.noConfusion (congrArg (fun x =>
          match x with | CaseId.str a => some a | _ => none) h),
        fun r' h => by cases h; rfl⟩
  · intro L hhooks f1 f2 n1 n2 w0 t1 w1 rep1 t2 w2 rep2 h1 h2
    obtain ⟨df1, hr1, hp1, hrep1⟩ := load_data_elim L f1 n1 w0 h1
    obtain ⟨df2, hr2, hp2, hrep2⟩ := load_data_elim L f2 n2 w1 h2
    refine ⟨by rw [hrep1], by rw [hrep2], ?_, ?_⟩
    · exact hpp L hhooks df1 w0 (t1, w1) hp1
    · exact hpp L hhooks df2 w1 (t2, w2) hp2

/-- Loader for the C9 witness: a single mandatory float variable. -/
def L9W : Loader :=
  { vars := [("M", { type := VarType.float, mandatory := true })],
    case_id_fun := fun _ => "c" }

/-- First file for the C9 witness: one missing mandatory value. -/
def F9A : CsvFile := { header := ["M"], rows := [[Val.na], [Val.num 1]] }

/-- Second file for the C9 witness: another missing mandatory value. -/
def F9B : CsvFile := { header := ["M"], rows := [[Val.na]] }

/-- C9 witness: two consecutive concrete loads on the same loader — each
report shows the whole log and the second log extends the first. -/
theorem c9_witness :
    ∃ (t1 : Table) (w1 : List Warning) (rep1 : Report)
      (t2 : Table) (w2 : List Warning) (rep2 : Report),
      L9W.load_data (some F9A) [] [] = .ok (t1, w1, rep1) ∧
      L9W.load_data (some F9B) [] w1 = .ok (t2, w2, rep2) ∧
      (rep1.rows = w1 ∧ rep2.rows = w2 ∧
        (∃ d0, w1 = [] ++ d0) ∧ (∃ d, w2 = w1 ++ d)) := by
  refine ⟨_, _, _, _, _, _, rfl, rfl, ?_⟩
  refine c9_warning_log_append_only.2.2 L9W ?_ F9A F9B [] [] []
    _ _ _ _ _ _ rfl rfl
  intro p hp
  simp only [L9W, List.mem_singleton] at hp
  rw [hp]
  exact ⟨fun f hf => Option.noConfusion hf,
    fun f hf => Option.noConfusion hf⟩

end DataloaderPy
